import Mathlib

/-! # The webhook deploy server `webhook/github_webhook.go`

A shallow embedding of the Go program and of the library functions it calls, followed by
the properties of its signature check, its request handler, its background deployment
and its log format.

Go strings and byte slices are lists of bytes. The library functions are written out from
the Go standard library: SHA-256 and HMAC, `hex.EncodeToString`,
`subtle.ConstantTimeCompare`, the scanner and the decoder of `encoding/json` for the type
`GitHubWebhook`, `strings.ToLower` on ASCII strings and `Time.Format` for the layout of
the log. What lies outside the program is an argument of the functions: the Unicode path
of `strings.ToLower`, the process runner, the clock and whether the log file opens.

The handler is a function from the request to the response and the list of calls it makes
on `writeLog` and `runDeployScriptAsync`, in order.
-/

set_option maxRecDepth 100000

namespace Webhook

/-- Go's `byte`. -/
abbrev Byte := Fin 256

/-- Go's `string` and `[]byte`: a finite sequence of bytes. -/
abbrev Bytes := List Byte

/-- Truncation of a natural number to a byte (`byte(x)` in Go). -/
def toByte (n : Nat) : Byte := ⟨n % 256, Nat.mod_lt n (by decide)⟩

/-- UTF-8 encoding of a rune as Go's `utf8.EncodeRune` writes it: surrogates and
values above U+10FFFF are written as U+FFFD. -/
def encodeRune (r : Nat) : Bytes :=
  if r < 0x80 then [toByte r]
  else if r < 0x800 then [toByte (0xC0 ||| (r >>> 6)), toByte (0x80 ||| (r &&& 0x3F))]
  else if 0x10FFFF < r ∨ (0xD800 ≤ r ∧ r ≤ 0xDFFF) then [0xEF, 0xBF, 0xBD]
  else if r < 0x10000 then
    [toByte (0xE0 ||| (r >>> 12)), toByte (0x80 ||| ((r >>> 6) &&& 0x3F)),
     toByte (0x80 ||| (r &&& 0x3F))]
  else
    [toByte (0xF0 ||| (r >>> 18)), toByte (0x80 ||| ((r >>> 12) &&& 0x3F)),
     toByte (0x80 ||| ((r >>> 6) &&& 0x3F)), toByte (0x80 ||| (r &&& 0x3F))]

/-- The bytes of a Go string literal (Go source text is UTF-8). -/
def str (s : String) : Bytes := s.toList.flatMap (fun c => encodeRune c.toNat)

/-! ### crypto/sha256 -/

/-- Addition of `uint32` values. -/
def add32 (a b : Nat) : Nat := (a + b) % 2 ^ 32

/-- The call `bits.RotateLeft32(x, -k)`: rotation to the right by `k` bits. -/
def rotr32 (x k : Nat) : Nat := ((x >>> k) ||| (x <<< (32 - k))) % 2 ^ 32

/-- Round constants `_K` of SHA-256. -/
def sha256K : List Nat :=
  [0x428A2F98, 0x71374491, 0xB5C0FBCF, 0xE9B5DBA5, 0x3956C25B, 0x59F111F1, 0x923F82A4, 0xAB1C5ED5,
   0xD807AA98, 0x12835B01, 0x243185BE, 0x550C7DC3, 0x72BE5D74, 0x80DEB1FE, 0x9BDC06A7, 0xC19BF174,
   0xE49B69C1, 0xEFBE4786, 0x0FC19DC6, 0x240CA1CC, 0x2DE92C6F, 0x4A7484AA, 0x5CB0A9DC, 0x76F988DA,
   0x983E5152, 0xA831C66D, 0xB00327C8, 0xBF597FC7, 0xC6E00BF3, 0xD5A79147, 0x06CA6351, 0x14292967,
   0x27B70A85, 0x2E1B2138, 0x4D2C6DFC, 0x53380D13, 0x650A7354, 0x766A0ABB, 0x81C2C92E, 0x92722C85,
   0xA2BFE8A1, 0xA81A664B, 0xC24B8B70, 0xC76C51A3, 0xD192E819, 0xD6990624, 0xF40E3585, 0x106AA070,
   0x19A4C116, 0x1E376C08, 0x2748774C, 0x34B0BCB5, 0x391C0CB3, 0x4ED8AA4A, 0x5B9CCA4F, 0x682E6FF3,
   0x748F82EE, 0x78A5636F, 0x84C87814, 0x8CC70208, 0x90BEFFFA, 0xA4506CEB, 0xBEF9A3F7, 0xC67178F2]

/-- The eight working words of a SHA-256 digest. -/
structure Digest where
  h0 : Nat
  h1 : Nat
  h2 : Nat
  h3 : Nat
  h4 : Nat
  h5 : Nat
  h6 : Nat
  h7 : Nat
deriving DecidableEq

/-- Initial hash value of SHA-256. -/
def sha256Init : Digest :=
  ⟨0x6a09e667, 0xbb67ae85, 0x3c6ef372, 0xa54ff53a, 0x510e527f, 0x9b05688c, 0x1f83d9ab, 0x5be0cd19⟩

/-- Big-endian 32-bit word at byte offset `j` of a block. -/
def beWord (p : Bytes) (j : Nat) : Nat :=
  ((p.getD j 0).val <<< 24) ||| ((p.getD (j + 1) 0).val <<< 16) |||
    ((p.getD (j + 2) 0).val <<< 8) ||| (p.getD (j + 3) 0).val

/-- One step of the message-schedule loop: appends `w[i]` for `i = w.length`. -/
def scheduleStep (w : List Nat) : List Nat :=
  let i := w.length
  let v1 := w.getD (i - 2) 0
  let t1 := rotr32 v1 17 ^^^ rotr32 v1 19 ^^^ (v1 >>> 10)
  let v2 := w.getD (i - 15) 0
  let t2 := rotr32 v2 7 ^^^ rotr32 v2 18 ^^^ (v2 >>> 3)
  w ++ [add32 (add32 (add32 t1 (w.getD (i - 7) 0)) t2) (w.getD (i - 16) 0)]

/-- The 64-word message schedule of one 64-byte block. -/
def schedule (p : Bytes) : List Nat :=
  Nat.iterate scheduleStep 48 ((List.range 16).map (fun i => beWord p (i * 4)))

/-- One round of the compression loop with round constant `k` and schedule word `w`. -/
def sha256Round (s : Digest) (k w : Nat) : Digest :=
  match s with
  | ⟨a, b, c, d, e, f, g, h⟩ =>
    let t1 := add32 (add32 (add32 (add32 h (rotr32 e 6 ^^^ rotr32 e 11 ^^^ rotr32 e 25))
      ((e &&& f) ^^^ ((e ^^^ 0xffffffff) &&& g))) k) w
    let t2 := add32 (rotr32 a 2 ^^^ rotr32 a 13 ^^^ rotr32 a 22)
      ((a &&& b) ^^^ (a &&& c) ^^^ (b &&& c))
    ⟨add32 t1 t2, a, b, c, add32 d t1, e, f, g⟩

/-- The function `blockGeneric` on a single 64-byte block. -/
def blockGeneric (dig : Digest) (p : Bytes) : Digest :=
  let r := (List.zip sha256K (schedule p)).foldl (fun s kw => sha256Round s kw.1 kw.2) dig
  ⟨add32 dig.h0 r.h0, add32 dig.h1 r.h1, add32 dig.h2 r.h2, add32 dig.h3 r.h3,
   add32 dig.h4 r.h4, add32 dig.h5 r.h5, add32 dig.h6 r.h6, add32 dig.h7 r.h7⟩

/-- Processes the first `n` 64-byte blocks of `p`. -/
def blocks : Nat → Digest → Bytes → Digest
  | 0, dig, _ => dig
  | n + 1, dig, p => blocks n (blockGeneric dig (p.take 64)) (p.drop 64)

/-- Big-endian bytes of a value, `width` bytes wide. -/
def beBytes : Nat → Nat → Bytes
  | 0, _ => []
  | width + 1, x => beBytes width (x / 256) ++ [toByte x]

/-- Padding appended by `checkSum`: `0x80`, zeros up to 56 mod 64, and the bit length
as a big-endian `uint64`. -/
def sha256Padding (len : Nat) : Bytes :=
  let t := if len % 64 < 56 then 56 - len % 64 else 64 + 56 - len % 64
  (0x80 : Byte) :: List.replicate (t - 1) 0 ++ beBytes 8 ((len <<< 3) % 2 ^ 64)

/-- SHA-256 of a message: `sha256.Sum256`. -/
def sha256 (msg : Bytes) : Bytes :=
  let padded := msg ++ sha256Padding msg.length
  let d := blocks (padded.length / 64) sha256Init padded
  beBytes 4 d.h0 ++ beBytes 4 d.h1 ++ beBytes 4 d.h2 ++ beBytes 4 d.h3 ++
    beBytes 4 d.h4 ++ beBytes 4 d.h5 ++ beBytes 4 d.h6 ++ beBytes 4 d.h7

/-! ### crypto/hmac -/

/-- The key block of `hmac.New`: keys longer than the block size are hashed first,
then the key is zero-padded to 64 bytes. -/
def hmacKeyBlock (key : Bytes) : Bytes :=
  let k := if 64 < key.length then sha256 key else key
  k ++ List.replicate (64 - k.length) 0

/-- Xor of every byte with a pad constant. -/
def xorPad (c : Nat) (k : Bytes) : Bytes := k.map (fun b => toByte (b.val ^^^ c))

/-- HMAC-SHA256: `hmac.New(sha256.New, key)`, `Write(msg)`, `Sum(nil)`. -/
def hmacSHA256 (key msg : Bytes) : Bytes :=
  let kb := hmacKeyBlock key
  sha256 (xorPad 0x5c kb ++ sha256 (xorPad 0x36 kb ++ msg))

/-! ### encoding/hex -/

/-- The table `hextable`. -/
def hextable : Bytes := str "0123456789abcdef"

/-- Lowercase hexadecimal encoding: `hex.EncodeToString`. -/
def hexEncode : Bytes → Bytes
  | [] => []
  | v :: rest => hextable.getD (v.val >>> 4) 0 :: hextable.getD (v.val &&& 0x0f) 0 :: hexEncode rest


/-! ### crypto/subtle and hmac.Equal -/

/-- The function `subtle.ConstantTimeByteEq`: `int((uint32(x^y) - 1) >> 31)`. -/
def constantTimeByteEq (x y : Nat) : Nat := (((x ^^^ y) + 2 ^ 32 - 1) % 2 ^ 32) >>> 31

/-- The function `subtle.ConstantTimeCompare`: 0 when the lengths differ, otherwise the
xor of every pair of bytes is or-ed into one byte that is compared with zero. -/
def constantTimeCompare (x y : Bytes) : Nat :=
  if x.length ≠ y.length then 0
  else constantTimeByteEq ((List.zip x y).foldl (fun v p => v ||| (p.1.val ^^^ p.2.val)) 0) 0

/-- The function `hmac.Equal`. -/
def hmacEqual (mac1 mac2 : Bytes) : Bool := constantTimeCompare mac1 mac2 == 1

/-! ### unicode/utf8 -/

/-- The width in bytes of a rune whose first byte is `p0`, for a first byte from `0xC2` to
`0xF4` (the low bits of the table `first`). -/
def runeWidth (p0 : Nat) : Nat := if p0 < 0xE0 then 2 else if p0 < 0xF0 then 3 else 4

/-- The least second byte accepted after the first byte `p0` (the table `acceptRanges`). -/
def acceptLo (p0 : Nat) : Nat := if p0 = 0xE0 then 0xA0 else if p0 = 0xF0 then 0x90 else 0x80

/-- The greatest second byte accepted after the first byte `p0` (the table
`acceptRanges`). -/
def acceptHi (p0 : Nat) : Nat := if p0 = 0xED then 0x9F else if p0 = 0xF4 then 0x8F else 0xBF

/-- The function `utf8.DecodeRune`: the first rune of `p` and its width in bytes; an
invalid or truncated encoding yields `(U+FFFD, 1)`, an empty input `(U+FFFD, 0)`. -/
def decodeRune (p : Bytes) : Nat × Nat :=
  match p with
  | [] => (0xFFFD, 0)
  | p0 :: rest =>
    if p0.val < 0x80 then (p0.val, 1)
    else if p0.val < 0xC2 ∨ 0xF4 < p0.val then (0xFFFD, 1)
    else if rest.length + 1 < runeWidth p0.val then (0xFFFD, 1)
    else
      let b1 := (rest.getD 0 0).val
      if b1 < acceptLo p0.val ∨ acceptHi p0.val < b1 then (0xFFFD, 1)
      else if runeWidth p0.val ≤ 2 then (((p0.val &&& 0x1F) <<< 6) ||| (b1 &&& 0x3F), 2)
      else
        let b2 := (rest.getD 1 0).val
        if b2 < 0x80 ∨ 0xBF < b2 then (0xFFFD, 1)
        else if runeWidth p0.val ≤ 3 then
          (((p0.val &&& 0x0F) <<< 12) ||| ((b1 &&& 0x3F) <<< 6) ||| (b2 &&& 0x3F), 3)
        else
          let b3 := (rest.getD 2 0).val
          if b3 < 0x80 ∨ 0xBF < b3 then (0xFFFD, 1)
          else
            (((p0.val &&& 0x07) <<< 18) ||| ((b1 &&& 0x3F) <<< 12) ||| ((b2 &&& 0x3F) <<< 6) |||
              (b3 &&& 0x3F), 4)

/-! ### strings.ToLower -/

/-- Whether a byte is an ASCII upper-case letter. -/
def isUpperASCII (c : Byte) : Bool := decide (0x41 ≤ c.val ∧ c.val ≤ 0x5A)

/-- The function `strings.ToLower`. A string of ASCII bytes is returned unchanged when it
has no upper-case letter and otherwise has 32 added to each of `A`..`Z`. Any other string
goes through `strings.Map(unicode.ToLower, s)`, whose Unicode tables are outside the
repository: `unicodeLower` stands for that call. -/
def toLower (unicodeLower : Bytes → Bytes) (s : Bytes) : Bytes :=
  if s.all (fun c => decide (c.val < 0x80)) then
    if !s.any isUpperASCII then s
    else s.map (fun c => if isUpperASCII c then toByte (c.val + 32) else c)
  else unicodeLower s


/-! ### encoding/json: the scanner (`scanner.go`) -/

/-- Opcodes returned by the scanner's step functions. -/
inductive ScanOp where
  | scanContinue | scanBeginLiteral | scanBeginObject | scanObjectKey | scanObjectValue
  | scanEndObject | scanBeginArray | scanArrayValue | scanEndArray | scanSkipSpace
  | scanEnd | scanError
deriving DecidableEq

/-- Entries of the scanner's parse-state stack. -/
inductive ParseState where
  | parseObjectKey | parseObjectValue | parseArrayValue
deriving DecidableEq

/-- The scanner's step functions (`stateBeginValue`, `stateInString`, ...). -/
inductive ScanState where
  | stateBeginValueOrEmpty | stateBeginValue | stateBeginStringOrEmpty | stateBeginString
  | stateEndValue | stateEndTop | stateInString | stateInStringEsc | stateInStringEscU
  | stateInStringEscU1 | stateInStringEscU12 | stateInStringEscU123 | stateNeg | state1
  | state0 | stateDot | stateDot0 | stateE | stateESign | stateE0 | stateT | stateTr
  | stateTru | stateF | stateFa | stateFal | stateFals | stateN | stateNu | stateNul
  | stateError
deriving DecidableEq

/-- The JSON scanner: its current step function, whether the top-level value has ended,
the stack of enclosing containers (innermost first) and whether an error was recorded. -/
structure Scanner where
  step : ScanState
  endTop : Bool
  parseState : List ParseState
  err : Bool
deriving DecidableEq

/-- The constant `maxNestingDepth`. -/
def maxNestingDepth : Nat := 10000

/-- The function `isSpace`. -/
def isSpace (c : Byte) : Bool :=
  decide (c.val ≤ 0x20) && (c.val == 0x20 || c.val == 0x09 || c.val == 0x0D || c.val == 0x0A)

/-- Whether a byte is an ASCII decimal digit. -/
def isDigit (c : Byte) : Bool := decide (0x30 ≤ c.val ∧ c.val ≤ 0x39)

/-- Whether a byte is a hexadecimal digit of either case. -/
def isHexDigit (c : Byte) : Bool :=
  isDigit c || decide (0x61 ≤ c.val ∧ c.val ≤ 0x66) || decide (0x41 ≤ c.val ∧ c.val ≤ 0x46)

/-- The method `scanner.error`: records the error and parks the scanner in `stateError`. -/
def Scanner.error (s : Scanner) : Scanner × ScanOp :=
  ({ s with step := .stateError, err := true }, .scanError)

/-- The method `pushParseState`; the caller has already set the next step function. -/
def Scanner.pushParseState (s : Scanner) (newParseState : ParseState) (successState : ScanOp) :
    Scanner × ScanOp :=
  let s1 := { s with parseState := newParseState :: s.parseState }
  if s1.parseState.length ≤ maxNestingDepth then (s1, successState) else s1.error

/-- The method `popParseState`. -/
def Scanner.popParseState (s : Scanner) : Scanner :=
  let rest := s.parseState.tail
  if rest.length = 0 then { s with parseState := rest, step := .stateEndTop, endTop := true }
  else { s with parseState := rest, step := .stateEndValue }

/-- The function `stateEndTop`: a byte other than white space after the top-level value
records an error that the next step (or the end of input) reports. -/
def stateEndTop (s : Scanner) (c : Byte) : Scanner × ScanOp :=
  if !isSpace c then ((s.error).1, .scanEnd) else (s, .scanEnd)

/-- The function `stateEndValue`. -/
def stateEndValue (s : Scanner) (c : Byte) : Scanner × ScanOp :=
  match s.parseState with
  | [] => stateEndTop { s with step := .stateEndTop, endTop := true } c
  | ps :: rest =>
    if isSpace c then ({ s with step := .stateEndValue }, .scanSkipSpace)
    else
      match ps with
      | .parseObjectKey =>
        if c.val = 0x3A then
          ({ s with parseState := .parseObjectValue :: rest, step := .stateBeginValue },
            .scanObjectKey)
        else s.error
      | .parseObjectValue =>
        if c.val = 0x2C then
          ({ s with parseState := .parseObjectKey :: rest, step := .stateBeginString },
            .scanObjectValue)
        else if c.val = 0x7D then (s.popParseState, .scanEndObject)
        else s.error
      | .parseArrayValue =>
        if c.val = 0x2C then ({ s with step := .stateBeginValue }, .scanArrayValue)
        else if c.val = 0x5D then (s.popParseState, .scanEndArray)
        else s.error

/-- The function `stateBeginValue`. -/
def stateBeginValue (s : Scanner) (c : Byte) : Scanner × ScanOp :=
  if isSpace c then (s, .scanSkipSpace)
  else if c.val = 0x7B then
    { s with step := .stateBeginStringOrEmpty }.pushParseState .parseObjectKey .scanBeginObject
  else if c.val = 0x5B then
    { s with step := .stateBeginValueOrEmpty }.pushParseState .parseArrayValue .scanBeginArray
  else if c.val = 0x22 then ({ s with step := .stateInString }, .scanBeginLiteral)
  else if c.val = 0x2D then ({ s with step := .stateNeg }, .scanBeginLiteral)
  else if c.val = 0x30 then ({ s with step := .state0 }, .scanBeginLiteral)
  else if c.val = 0x74 then ({ s with step := .stateT }, .scanBeginLiteral)
  else if c.val = 0x66 then ({ s with step := .stateF }, .scanBeginLiteral)
  else if c.val = 0x6E then ({ s with step := .stateN }, .scanBeginLiteral)
  else if 0x31 ≤ c.val ∧ c.val ≤ 0x39 then ({ s with step := .state1 }, .scanBeginLiteral)
  else s.error

/-- The function `stateBeginValueOrEmpty`. -/
def stateBeginValueOrEmpty (s : Scanner) (c : Byte) : Scanner × ScanOp :=
  if isSpace c then (s, .scanSkipSpace)
  else if c.val = 0x5D then stateEndValue s c
  else stateBeginValue s c

/-- The function `stateBeginString`. -/
def stateBeginString (s : Scanner) (c : Byte) : Scanner × ScanOp :=
  if isSpace c then (s, .scanSkipSpace)
  else if c.val = 0x22 then ({ s with step := .stateInString }, .scanBeginLiteral)
  else s.error

/-- The function `stateBeginStringOrEmpty`. -/
def stateBeginStringOrEmpty (s : Scanner) (c : Byte) : Scanner × ScanOp :=
  if isSpace c then (s, .scanSkipSpace)
  else if c.val = 0x7D then
    stateEndValue { s with parseState := .parseObjectValue :: s.parseState.tail } c
  else stateBeginString s c

/-- The function `state0`: after a leading `0` or the integer digits of a number. -/
def state0 (s : Scanner) (c : Byte) : Scanner × ScanOp :=
  if c.val = 0x2E then ({ s with step := .stateDot }, .scanContinue)
  else if c.val = 0x65 ∨ c.val = 0x45 then ({ s with step := .stateE }, .scanContinue)
  else stateEndValue s c

/-- The function `stateESign`. -/
def stateESign (s : Scanner) (c : Byte) : Scanner × ScanOp :=
  if isDigit c then ({ s with step := .stateE0 }, .scanContinue) else s.error

/-- A step that accepts exactly the byte `want` and moves to `next`. -/
def expectByte (s : Scanner) (c : Byte) (want : Nat) (next : ScanState) : Scanner × ScanOp :=
  if c.val = want then ({ s with step := next }, .scanContinue) else s.error

/-- One call `s.step(s, c)`: dispatch on the current step function. -/
def Scanner.doStep (s : Scanner) (c : Byte) : Scanner × ScanOp :=
  match s.step with
  | .stateBeginValueOrEmpty => stateBeginValueOrEmpty s c
  | .stateBeginValue => stateBeginValue s c
  | .stateBeginStringOrEmpty => stateBeginStringOrEmpty s c
  | .stateBeginString => stateBeginString s c
  | .stateEndValue => stateEndValue s c
  | .stateEndTop => stateEndTop s c
  | .stateInString =>
    if c.val = 0x22 then ({ s with step := .stateEndValue }, .scanContinue)
    else if c.val = 0x5C then ({ s with step := .stateInStringEsc }, .scanContinue)
    else if c.val < 0x20 then s.error
    else (s, .scanContinue)
  | .stateInStringEsc =>
    if c.val = 0x62 ∨ c.val = 0x66 ∨ c.val = 0x6E ∨ c.val = 0x72 ∨ c.val = 0x74 ∨
        c.val = 0x5C ∨ c.val = 0x2F ∨ c.val = 0x22 then
      ({ s with step := .stateInString }, .scanContinue)
    else if c.val = 0x75 then ({ s with step := .stateInStringEscU }, .scanContinue)
    else s.error
  | .stateInStringEscU =>
    if isHexDigit c then ({ s with step := .stateInStringEscU1 }, .scanContinue) else s.error
  | .stateInStringEscU1 =>
    if isHexDigit c then ({ s with step := .stateInStringEscU12 }, .scanContinue) else s.error
  | .stateInStringEscU12 =>
    if isHexDigit c then ({ s with step := .stateInStringEscU123 }, .scanContinue) else s.error
  | .stateInStringEscU123 =>
    if isHexDigit c then ({ s with step := .stateInString }, .scanContinue) else s.error
  | .stateNeg =>
    if c.val = 0x30 then ({ s with step := .state0 }, .scanContinue)
    else if 0x31 ≤ c.val ∧ c.val ≤ 0x39 then ({ s with step := .state1 }, .scanContinue)
    else s.error
  | .state1 => if isDigit c then ({ s with step := .state1 }, .scanContinue) else state0 s c
  | .state0 => state0 s c
  | .stateDot => if isDigit c then ({ s with step := .stateDot0 }, .scanContinue) else s.error
  | .stateDot0 =>
    if isDigit c then (s, .scanContinue)
    else if c.val = 0x65 ∨ c.val = 0x45 then ({ s with step := .stateE }, .scanContinue)
    else stateEndValue s c
  | .stateE =>
    if c.val = 0x2B ∨ c.val = 0x2D then ({ s with step := .stateESign }, .scanContinue)
    else stateESign s c
  | .stateESign => stateESign s c
  | .stateE0 => if isDigit c then (s, .scanContinue) else stateEndValue s c
  | .stateT => expectByte s c 0x72 .stateTr
  | .stateTr => expectByte s c 0x75 .stateTru
  | .stateTru => expectByte s c 0x65 .stateEndValue
  | .stateF => expectByte s c 0x61 .stateFa
  | .stateFa => expectByte s c 0x6C .stateFal
  | .stateFal => expectByte s c 0x73 .stateFals
  | .stateFals => expectByte s c 0x65 .stateEndValue
  | .stateN => expectByte s c 0x75 .stateNu
  | .stateNu => expectByte s c 0x6C .stateNul
  | .stateNul => expectByte s c 0x6C .stateEndValue
  | .stateError => (s, .scanError)

/-- The method `scanner.reset`. -/
def Scanner.reset : Scanner := ⟨.stateBeginValue, false, [], false⟩

/-- The method `scanner.eof`: whether the input may end here (`scanEnd`) or not
(`scanError`). -/
def Scanner.eof (s : Scanner) : ScanOp :=
  if s.err then .scanError
  else if s.endTop then .scanEnd
  else if (s.doStep 0x20).1.endTop then .scanEnd
  else .scanError

/-- The loop of `checkValid` from scanner state `s`: true when no step reports
`scanError` and the input may end after the last byte. -/
def checkValidFrom : Scanner → Bytes → Bool
  | s, [] => s.eof != .scanError
  | s, c :: rest =>
    match s.doStep c with
    | (_, .scanError) => false
    | (s1, _) => checkValidFrom s1 rest

/-- The function `checkValid`: whether `data` is one syntactically valid JSON value. -/
def checkValid (data : Bytes) : Bool := checkValidFrom Scanner.reset data


/-! ### encoding/json: decoding into `GitHubWebhook` (`decode.go`) -/

/-- The struct `GitHubWebhook`: its only field `Repository` holds `Name` and `CloneURL`. -/
structure GitHubWebhook where
  name : Bytes
  cloneURL : Bytes
deriving DecidableEq

/-- The value of a hexadecimal digit, as the loop of `getu4` computes it. -/
def hexValue (c : Byte) : Option Nat :=
  if 0x30 ≤ c.val ∧ c.val ≤ 0x39 then some (c.val - 0x30)
  else if 0x61 ≤ c.val ∧ c.val ≤ 0x66 then some (c.val - 0x61 + 10)
  else if 0x41 ≤ c.val ∧ c.val ≤ 0x46 then some (c.val - 0x41 + 10)
  else none

/-- The function `getu4`: the value of a leading `\uXXXX`, or `none` (Go's `-1`). -/
def getu4 (s : Bytes) : Option Nat :=
  match s with
  | b0 :: b1 :: c0 :: c1 :: c2 :: c3 :: _ =>
    if b0.val ≠ 0x5C ∨ b1.val ≠ 0x75 then none
    else
      match hexValue c0, hexValue c1, hexValue c2, hexValue c3 with
      | some v0, some v1, some v2, some v3 => some (((v0 * 16 + v1) * 16 + v2) * 16 + v3)
      | _, _, _, _ => none
  | _ => none

/-- The function `utf16.DecodeRune`: the code point of a surrogate pair, U+FFFD when the
two values are not a valid pair. -/
def utf16DecodeRune (r1 r2 : Nat) : Nat :=
  if 0xD800 ≤ r1 ∧ r1 < 0xDC00 ∧ 0xDC00 ≤ r2 ∧ r2 < 0xE000 then
    (((r1 - 0xD800) <<< 10) ||| (r2 - 0xDC00)) + 0x10000
  else 0xFFFD

/-- First loop of `unquoteBytes`: the length of the longest prefix without a backslash,
quote, control character or malformed UTF-8. -/
def plainLen : Nat → Bytes → Nat
  | 0, _ => 0
  | _ + 1, [] => 0
  | fuel + 1, c :: rest =>
    if c.val = 0x5C ∨ c.val = 0x22 ∨ c.val < 0x20 then 0
    else if c.val < 0x80 then 1 + plainLen fuel rest
    else
      let (rr, size) := decodeRune (c :: rest)
      if rr = 0xFFFD ∧ size = 1 then 0
      else size + plainLen fuel (rest.drop (size - 1))

/-- Second loop of `unquoteBytes`: decodes escapes and coerces malformed UTF-8 to U+FFFD;
`none` is Go's `ok == false`. -/
def unquoteLoop : Nat → Bytes → Option Bytes
  | 0, s => if s = [] then some [] else none
  | _ + 1, [] => some []
  | fuel + 1, c :: rest =>
    if c.val = 0x5C then
      match rest with
      | [] => none
      | e :: rest1 =>
        let simple := fun (b : Byte) => (unquoteLoop fuel rest1).map (fun t => b :: t)
        if e.val = 0x22 ∨ e.val = 0x5C ∨ e.val = 0x2F ∨ e.val = 0x27 then simple e
        else if e.val = 0x62 then simple 0x08
        else if e.val = 0x66 then simple 0x0C
        else if e.val = 0x6E then simple 0x0A
        else if e.val = 0x72 then simple 0x0D
        else if e.val = 0x74 then simple 0x09
        else if e.val = 0x75 then
          match getu4 (c :: rest) with
          | none => none
          | some rr =>
            let after := rest.drop 5
            if 0xD800 ≤ rr ∧ rr < 0xE000 then
              -- a surrogate: a valid pair is consumed whole, anything else becomes U+FFFD
              match getu4 after with
              | some rr1 =>
                if utf16DecodeRune rr rr1 ≠ 0xFFFD then
                  (unquoteLoop fuel (after.drop 6)).map
                    (fun t => encodeRune (utf16DecodeRune rr rr1) ++ t)
                else (unquoteLoop fuel after).map (fun t => encodeRune 0xFFFD ++ t)
              | none => (unquoteLoop fuel after).map (fun t => encodeRune 0xFFFD ++ t)
            else (unquoteLoop fuel after).map (fun t => encodeRune rr ++ t)
        else none
    else if c.val = 0x22 ∨ c.val < 0x20 then none
    else if c.val < 0x80 then (unquoteLoop fuel rest).map (fun t => c :: t)
    else
      let (rr, size) := decodeRune (c :: rest)
      (unquoteLoop fuel (rest.drop (size - 1))).map (fun t => encodeRune rr ++ t)

/-- The function `unquoteBytes`: the contents of a quoted JSON string literal. -/
def unquoteBytes (s : Bytes) : Option Bytes :=
  if s.length < 2 ∨ s.head? ≠ some 0x22 ∨ s.getLast? ≠ some 0x22 then none
  else
    let inner := (s.drop 1).take (s.length - 2)
    let r := plainLen inner.length inner
    if r = inner.length then some inner
    else (unquoteLoop inner.length (inner.drop r)).map (fun t => inner.take r ++ t)

/-- The function `foldRune` on a non-ASCII rune: the smallest rune of its case-folding
orbit. Only U+017F (long s) and U+212A (Kelvin sign) fold to an ASCII letter; every other
non-ASCII rune folds to a non-ASCII rune, which the model leaves as it is since it can
never equal a byte of an ASCII field name. -/
def foldRune (r : Nat) : Nat := if r = 0x17F then 0x53 else if r = 0x212A then 0x4B else r

/-- The function `foldName` (`appendFoldedName`): ASCII letters are upper-cased, other
runes are replaced by their `foldRune`. -/
def foldName : Nat → Bytes → Bytes
  | 0, _ => []
  | _ + 1, [] => []
  | fuel + 1, c :: rest =>
    if c.val < 0x80 then
      (if 0x61 ≤ c.val ∧ c.val ≤ 0x7A then toByte (c.val - 32) else c) :: foldName fuel rest
    else
      let (r, n) := decodeRune (c :: rest)
      encodeRune (foldRune r) ++ foldName fuel (rest.drop (n - 1))

/-- The destination `d.value` decodes into: the struct itself, its `Repository` field, the
string fields `Name` and `CloneURL`, or no destination (an unknown key, whose value is
skipped). -/
inductive Target where
  | webhook | repository | name | cloneURL | invalid
deriving DecidableEq

/-- The JSON field names of a struct destination with their destinations, in declaration
order (`cachedTypeFields`). -/
def Target.fields : Target → List (Bytes × Target)
  | .webhook => [(str "repository", .repository)]
  | .repository => [(str "name", .name), (str "clone_url", .cloneURL)]
  | _ => []

/-- Whether the destination is a Go struct. -/
def Target.isStruct : Target → Bool
  | .webhook => true
  | .repository => true
  | _ => false

/-- Field lookup of `d.object`: an exact match of the key, else a match of the folded
names; `invalid` when the struct has no such field. -/
def Target.field (t : Target) (key : Bytes) : Target :=
  match t.fields.find? (fun f => f.1 = key) with
  | some f => f.2
  | none =>
    match t.fields.find? (fun f => foldName f.1.length f.1 = foldName key.length key) with
    | some f => f.2
    | none => .invalid

/-- The decoder's state that outlives a call: the value being filled in and whether an
error has been saved (`d.savedError != nil`). -/
structure DecodeState where
  payload : GitHubWebhook
  savedError : Bool
deriving DecidableEq

/-- The method `saveError`. -/
def DecodeState.saveError (d : DecodeState) : DecodeState := { d with savedError := true }

/-- The input after the white space at its front (`d.scanWhile(scanSkipSpace)`). -/
def skipSpace : Bytes → Bytes
  | [] => []
  | c :: rest => if isSpace c then skipSpace rest else c :: rest

/-- The string case of `rescanLiteral`, after the opening quote: the bytes up to and
including the closing quote, and the input after it. -/
def scanString : Bytes → Bytes × Bytes
  | [] => ([], [])
  | c :: rest =>
    if c.val = 0x22 then ([c], rest)
    else if c.val = 0x5C then
      match rest with
      | [] => ([c], [])
      | e :: rest1 => let (lit, after) := scanString rest1; (c :: e :: lit, after)
    else let (lit, after) := scanString rest; (c :: lit, after)

/-- Whether a byte may continue a number in `rescanLiteral`. -/
def isNumberByte (c : Byte) : Bool :=
  isDigit c || c.val == 0x2E || c.val == 0x65 || c.val == 0x45 || c.val == 0x2B || c.val == 0x2D

/-- The method `rescanLiteral` for a literal starting at the head of `data`: the literal
and the input after it. -/
def rescanLiteral (data : Bytes) : Bytes × Bytes :=
  match data with
  | [] => ([], [])
  | c :: rest =>
    if c.val = 0x22 then let (lit, after) := scanString rest; (c :: lit, after)
    else if isDigit c ∨ c.val = 0x2D then
      (c :: rest.takeWhile isNumberByte, rest.dropWhile isNumberByte)
    else if c.val = 0x74 then (data.take 4, data.drop 4)
    else if c.val = 0x66 then (data.take 5, data.drop 5)
    else if c.val = 0x6E then (data.take 4, data.drop 4)
    else ([c], rest)

/-- The method `literalStore` for the destinations of `GitHubWebhook`: `null` leaves the
destination as it is, a string is stored in a string destination, and every other
combination saves an `UnmarshalTypeError`. `none` is Go's panic on a literal the scanner
would not have accepted. -/
def literalStore (item : Bytes) (v : Target) (d : DecodeState) : Option DecodeState :=
  match item with
  | [] => some d.saveError
  | c :: _ =>
    if c.val = 0x6E then some d
    else if c.val = 0x74 ∨ c.val = 0x66 then some d.saveError
    else if c.val = 0x22 then
      match unquoteBytes item with
      | none => none
      | some s =>
        match v with
        | .name => some { d with payload := { d.payload with name := s } }
        | .cloneURL => some { d with payload := { d.payload with cloneURL := s } }
        | _ => some d.saveError
    else if c.val ≠ 0x2D ∧ ¬ isDigit c then none
    else some d.saveError

mutual

/-- The method `d.value`: decodes the JSON value at the head of the input into `v` and
returns the input after the value. `none` is Go's panic on input the scanner would not
have accepted; the first argument bounds the number of nested calls. -/
def value : Nat → Target → DecodeState → Bytes → Option (DecodeState × Bytes)
  | 0, _, _, _ => none
  | fuel + 1, v, d, data =>
    match data with
    | [] => none
    | c :: rest =>
      if c.val = 0x5B then
        -- `d.array`: no destination of this struct is an array or slice
        arrayElements fuel true (if v = .invalid then d else d.saveError) (skipSpace rest)
      else if c.val = 0x7B then
        -- `d.object`
        if v.isStruct then objectMembers fuel true v d (skipSpace rest)
        else objectMembers fuel true .invalid (if v = .invalid then d else d.saveError)
          (skipSpace rest)
      else
        let (item, after) := rescanLiteral data
        if v = .invalid then some (d, after)
        else (literalStore item v d).map (fun d1 => (d1, after))

/-- The elements of an array after `[`, all of them skipped; `first` tells whether `]` may
come next. -/
def arrayElements : Nat → Bool → DecodeState → Bytes → Option (DecodeState × Bytes)
  | 0, _, _, _ => none
  | fuel + 1, first, d, data =>
    match data with
    | [] => none
    | c :: rest =>
      if first ∧ c.val = 0x5D then some (d, rest)
      else
        match value fuel .invalid d data with
        | none => none
        | some (d1, after) =>
          match skipSpace after with
          | [] => none
          | e :: rest1 =>
            if e.val = 0x5D then some (d1, rest1)
            else if e.val = 0x2C then arrayElements fuel false d1 (skipSpace rest1)
            else none

/-- The members of an object after the opening brace, decoded into the fields of the
struct `v` (or skipped when `v` is `invalid`); `first` tells whether the closing brace may
come next. -/
def objectMembers : Nat → Bool → Target → DecodeState → Bytes → Option (DecodeState × Bytes)
  | 0, _, _, _, _ => none
  | fuel + 1, first, v, d, data =>
    match data with
    | [] => none
    | c :: rest =>
      if first ∧ c.val = 0x7D then some (d, rest)
      else if c.val ≠ 0x22 then none
      else
        let (item, after) := rescanLiteral data
        -- the key is unquoted and looked up only when there is a struct to fill in
        match (if v = .invalid then some .invalid else (unquoteBytes item).map v.field) with
        | none => none
        | some subv =>
          match skipSpace after with
          | [] => none
          | colon :: rest1 =>
            if colon.val ≠ 0x3A then none
            else
              match value fuel subv d (skipSpace rest1) with
              | none => none
              | some (d1, after1) =>
                match skipSpace after1 with
                | [] => none
                | e :: rest2 =>
                  if e.val = 0x7D then some (d1, rest2)
                  else if e.val = 0x2C then objectMembers fuel false v d1 (skipSpace rest2)
                  else none

end

/-- The function `json.Unmarshal(data, &payload)` for a fresh `GitHubWebhook`: `none` when
it returns an error (a syntax error found by `checkValid`, or a saved
`UnmarshalTypeError`), otherwise the decoded payload. The decoder runs only on input the
scanner has accepted; its own `none` is counted as an error as well. -/
def jsonUnmarshal (data : Bytes) : Option GitHubWebhook :=
  if !checkValid data then none
  else
    match value (2 * data.length + 2) .webhook ⟨⟨[], []⟩, false⟩ (skipSpace data) with
    | none => none
    | some (d, _) => if d.savedError then none else some d.payload


/-! ### time.Time.Format with the layout of `writeLog` -/

/-- A clock reading as `Time.Format` sees it: the results of `t.Date()` and `t.Clock()`. -/
structure Time where
  year : Int
  month : Nat
  day : Nat
  hour : Nat
  minute : Nat
  second : Nat
deriving DecidableEq

/-- The ASCII digit of a value below ten. -/
def digit (n : Nat) : Byte := toByte (0x30 + n % 10)

/-- Decimal digits of a natural number, most significant first; the first argument bounds
the number of digits. -/
def decimal : Nat → Nat → Bytes
  | 0, _ => []
  | fuel + 1, n => if n < 10 then [digit n] else decimal fuel (n / 10) ++ [digit n]

/-- The function `appendInt` of package `time`: a minus sign for a negative value, then
the decimal digits padded with zeros to `width`. -/
def appendInt (x : Int) (width : Nat) : Bytes :=
  let u := x.natAbs
  (if x < 0 then [(0x2D : Byte)] else []) ++
    (if width = 2 ∧ u < 100 then [digit (u / 10), digit u]
     else if width = 4 ∧ u < 10000 then [digit (u / 1000), digit (u / 100), digit (u / 10), digit u]
     else
       let ds := decimal (u + 1) u
       List.replicate (width - ds.length) (0x30 : Byte) ++ ds)

/-- The call `t.Format("2006-01-02 15:04:05")`. -/
def formatTime (t : Time) : Bytes :=
  appendInt t.year 4 ++ str "-" ++ appendInt t.month 2 ++ str "-" ++ appendInt t.day 2 ++
    str " " ++ appendInt t.hour 2 ++ str ":" ++ appendInt t.minute 2 ++ str ":" ++
    appendInt t.second 2

/-! ### The program: `github_webhook.go` -/

/-- The constant `webhookSecret`. -/
def webhookSecret : Bytes := str "xxxxxxxxxxxxxxxx"

/-- The constant `timeout`, in seconds. -/
def timeout : Nat := 30

/-- What a call of `writeLog` finds outside the program: whether `os.OpenFile` on the log
file succeeds, and the reading of `time.Now()`. -/
structure LogEnv where
  openOk : Bool
  now : Time
deriving DecidableEq

/-- The string `writeLog` passes to `f.WriteString`:
`fmt.Sprintf("[%s] %s\n", timestamp, message)`. -/
def logEntry (now : Time) (message : Bytes) : Bytes :=
  str "[" ++ formatTime now ++ str "] " ++ message ++ str "\n"

/-- The function `writeLog` as a transformer of the content of the log file: when the
file cannot be opened nothing is appended (the failure goes to the standard logger),
otherwise one formatted entry is appended. -/
def writeLog (env : LogEnv) (file : Bytes) (message : Bytes) : Bytes :=
  if env.openOk then file ++ logEntry env.now message else file

/-- The function `verifySignature`. -/
def verifySignature (signature : Bytes) (body : Bytes) : Bool :=
  let expectedMAC := hmacSHA256 webhookSecret body
  let expectedSignature := str "sha256=" ++ hexEncode expectedMAC
  hmacEqual expectedSignature signature

/-- A call the program makes on one of its collaborators: an entry handed to `writeLog`,
or a background deployment started by `runDeployScriptAsync`. -/
inductive Effect where
  | writeLog (message : Bytes)
  | runDeployScriptAsync (project cloneURL : Bytes)
deriving DecidableEq

/-- How the external deploy action can fail; each carries the text of `err.Error()`. -/
inductive DeployError where
  | startFailure (description : Bytes)
  | nonZeroExit (description : Bytes)
  | timedOut (description : Bytes)
deriving DecidableEq

/-- The method `Error()` of the error returned by `cmd.CombinedOutput`. -/
def DeployError.description : DeployError → Bytes
  | .startFailure d => d
  | .nonZeroExit d => d
  | .timedOut d => d

/-- The process runner: given the timeout in seconds and the argument vector, the combined
output and the error of `cmd.CombinedOutput()`. -/
abbrev Runner := Nat → List Bytes → Bytes × Option DeployError

/-- The argument vector of `exec.CommandContext` in `runDeployScriptAsync`. -/
def deployCommand (project cloneURL : Bytes) : List Bytes :=
  [str "/bin/bash", str "/path/to/deploy.sh", project, cloneURL]

/-- The function `runDeployScriptAsync`, as the work of the goroutine it starts: the deploy
command is run by the process runner, and the result is the messages handed to `writeLog`,
in order. -/
def runDeployScriptAsync (run : Runner) (project cloneURL : Bytes) : List Bytes :=
  let (output, err) := run timeout (deployCommand project cloneURL)
  [str "Running deploy script for project: " ++ project,
   output,
   match err with
   | some e => str "Deployment error: " ++ e.description
   | none => str "Deployment success for project: " ++ project]

/-- An incoming request as `webhookHandler` reads it: the method, the values of the header
`X-Hub-Signature-256`, and the result of `io.ReadAll(r.Body)` (the bytes read and whether
an error was returned). -/
structure Request where
  method : Bytes
  signatureHeader : List Bytes
  body : Bytes
  readErr : Bool
deriving DecidableEq

/-- What the handler wrote to the `http.ResponseWriter`. -/
structure Response where
  contentType : Bytes
  status : Nat
  body : Bytes
deriving DecidableEq

/-- The method `Header.Get`: the first value of the header, the empty string when the
header is absent. -/
def headerGet (values : List Bytes) : Bytes := values.headD []

/-- The function `http.Error`: a plain-text response with the message and a newline. -/
def httpError (error : Bytes) (code : Nat) : Response :=
  ⟨str "text/plain; charset=utf-8", code, error ++ str "\n"⟩

/-- The function `webhookHandler`: the response and, in order, the calls made on
`writeLog` and `runDeployScriptAsync`. -/
def webhookHandler (unicodeLower : Bytes → Bytes) (r : Request) : Response × List Effect :=
  if r.method ≠ str "POST" then (httpError (str "Method not allowed") 405, [])
  else
    let signature := headerGet r.signatureHeader
    if signature = [] then
      (httpError (str "Missing signature") 401, [.writeLog (str "Missing signature")])
    else if r.readErr then (httpError (str "Cannot read body") 400, [])
    else if !verifySignature signature r.body then
      (httpError (str "Invalid signature") 401, [.writeLog (str "Invalid signature")])
    else
      match jsonUnmarshal r.body with
      | none => (httpError (str "Invalid JSON") 400, [])
      | some payload =>
        let project := toLower unicodeLower payload.name
        (⟨str "text/plain", 202, str "Deployment started for project: " ++ project⟩,
         [.writeLog (str "Webhook triggered for project: " ++ project),
          .runDeployScriptAsync project payload.cloneURL])


/-! ### Notions the specification uses -/

/-- The signature the specification expects for a payload: the prefix `sha256=` followed
by the lowercase hexadecimal encoding of HMAC-SHA256 of the payload under the secret. -/
def expectedSignature (payload : Bytes) : Bytes :=
  str "sha256=" ++ hexEncode (hmacSHA256 webhookSecret payload)

/-- A single-bit mutation of a string: bit `k` of the byte at index `i` is flipped. -/
def flipBit (s : Bytes) (i k : Nat) : Bytes :=
  s.set i (toByte ((s.getD i 0).val ^^^ 2 ^ k))

/-- Whether an effect is an invocation of the dispatcher. -/
def Effect.isDispatch : Effect → Bool
  | .runDeployScriptAsync _ _ => true
  | .writeLog _ => false

/-- The lines of a text: the pieces between line feeds, without an empty piece after a
final line feed. -/
def splitLines : Bytes → List Bytes
  | [] => []
  | c :: rest =>
    if c.val = 0x0A then [] :: splitLines rest
    else
      match splitLines rest with
      | [] => [[c]]
      | line :: lines => (c :: line) :: lines

/-- Whether a string has the shape `YYYY-MM-DD HH:MM:SS`. -/
def isTimestamp (ts : Bytes) : Bool :=
  ts.map (fun c => if isDigit c then (0x30 : Byte) else c) = str "0000-00-00 00:00:00"

/-- Whether a line begins with a bracketed timestamp: `[YYYY-MM-DD HH:MM:SS] `. -/
def isStampedLine (line : Bytes) : Bool :=
  line.take 1 = str "[" && isTimestamp ((line.drop 1).take 19) && (line.drop 20).take 2 = str "] "

/-- A clock reading of the years 0 to 9999 with calendar and clock fields in range. -/
def Time.inRange (t : Time) : Prop :=
  0 ≤ t.year ∧ t.year ≤ 9999 ∧ 1 ≤ t.month ∧ t.month ≤ 12 ∧ 1 ≤ t.day ∧ t.day ≤ 31 ∧
    t.hour < 24 ∧ t.minute < 60 ∧ t.second < 60

instance (t : Time) : Decidable t.inRange := by
  unfold Time.inRange
  infer_instance

/-- The log file after a sequence of `writeLog` calls, each with the environment it finds
and its message. -/
def writeLogAll (file : Bytes) : List (LogEnv × Bytes) → Bytes
  | [] => file
  | (env, message) :: rest => writeLogAll (writeLog env file message) rest

/-- The body of the specification's example request. -/
def exampleBody : Bytes :=
  str "\x7b\"repository\":\x7b\"name\":\"My-Repo\",\"clone_url\":\"https://x/y.git\"\x7d\x7d"

/-- A POST request carrying `body` with the signature the specification expects for it. -/
def signedPost (body : Bytes) : Request :=
  ⟨str "POST", [expectedSignature body], body, false⟩


/-! ### Notions used in the proofs about the scanner and the decoder -/

/-- The scanner in the middle of an input without error: step function `st` and stack of
open containers `stack`. -/
def scannerAt (st : ScanState) (stack : List ParseState) : Scanner := ⟨st, false, stack, false⟩

/-- The states in which the scanner passes over white space without a change. -/
def skipsSpace (st : ScanState) (stack : List ParseState) : Prop :=
  st = .stateBeginValue ∨ st = .stateBeginValueOrEmpty ∨ st = .stateBeginString ∨
    st = .stateBeginStringOrEmpty ∨ (st = .stateEndValue ∧ stack ≠ [])

/-- The states of the scanner inside a number. -/
def numState (st : ScanState) : Prop :=
  st = .stateNeg ∨ st = .state1 ∨ st = .state0 ∨ st = .stateDot ∨ st = .stateDot0 ∨
    st = .stateE ∨ st = .stateESign ∨ st = .stateE0

/-- Acceptance of the body of a string literal (the bytes between the quotes): mode 0 is
plain text, mode 1 follows a backslash, modes 5 to 2 expect four to one more hexadecimal
digits of a `\u` escape. -/
def strRun : Nat → Bytes → Bool
  | k, [] => k == 0
  | 0, c :: rest =>
    if c.val = 0x22 ∨ c.val < 0x20 then false
    else if c.val = 0x5C then strRun 1 rest
    else strRun 0 rest
  | 1, c :: rest =>
    if c.val = 0x62 ∨ c.val = 0x66 ∨ c.val = 0x6E ∨ c.val = 0x72 ∨ c.val = 0x74 ∨
        c.val = 0x5C ∨ c.val = 0x2F ∨ c.val = 0x22 then strRun 0 rest
    else if c.val = 0x75 then strRun 5 rest
    else false
  | k + 2, c :: rest => if isHexDigit c then strRun (if k = 0 then 0 else k + 1) rest else false

/-- The scanner state of a mode of `strRun` other than mode 1. -/
def strState : Nat → ScanState
  | 0 => .stateInString
  | 5 => .stateInStringEscU
  | 4 => .stateInStringEscU1
  | 3 => .stateInStringEscU12
  | _ => .stateInStringEscU123

/-! ## Lemmas on the signature check -/

theorem or_eq_zero_iff (a b : Nat) : a ||| b = 0 ↔ a = 0 ∧ b = 0 := by
  constructor
  · intro h
    have hbits : ∀ i, a.testBit i = false ∧ b.testBit i = false := by
      intro i
      have := congrArg (fun n => n.testBit i) h
      simpa [Nat.testBit_or] using this
    exact ⟨Nat.eq_of_testBit_eq (fun i => by simp [(hbits i).1]),
      Nat.eq_of_testBit_eq (fun i => by simp [(hbits i).2])⟩
  · rintro ⟨rfl, rfl⟩
    rfl

theorem foldl_or_xor_eq_zero (l : List (Byte × Byte)) (acc : Nat) :
    l.foldl (fun v p => v ||| (p.1.val ^^^ p.2.val)) acc = 0 ↔
      acc = 0 ∧ ∀ p ∈ l, p.1 = p.2 := by
  induction l generalizing acc with
  | nil => simp
  | cons p rest ih =>
    simp only [List.foldl_cons, ih, or_eq_zero_iff, Nat.xor_eq_zero, List.mem_cons,
      forall_eq_or_imp, Fin.val_inj]
    tauto

theorem foldl_or_xor_lt (l : List (Byte × Byte)) (acc : Nat) (h : acc < 2 ^ 8) :
    l.foldl (fun v p => v ||| (p.1.val ^^^ p.2.val)) acc < 2 ^ 8 := by
  induction l generalizing acc with
  | nil => simpa using h
  | cons p rest ih =>
    simp only [List.foldl_cons]
    exact ih _ (Nat.or_lt_two_pow h (Nat.xor_lt_two_pow p.1.isLt p.2.isLt))

theorem constantTimeByteEq_zero (v : Nat) (h : v < 2 ^ 8) :
    constantTimeByteEq v 0 = 1 ↔ v = 0 := by
  have h1 : v < 256 := h
  unfold constantTimeByteEq
  interval_cases v <;> decide

theorem zip_forall_eq {x y : Bytes} (hlen : x.length = y.length) :
    (∀ p ∈ List.zip x y, p.1 = p.2) ↔ x = y := by
  induction x generalizing y with
  | nil =>
    cases y with
    | nil => simp
    | cons b ys => simp at hlen
  | cons a xs ih =>
    cases y with
    | nil => simp at hlen
    | cons b ys =>
      have hl : xs.length = ys.length := by simpa using hlen
      have ih1 := ih hl
      simp only [List.zip_cons_cons, List.mem_cons, forall_eq_or_imp, List.cons.injEq]
      rw [ih1]

theorem constantTimeCompare_eq_one (x y : Bytes) : constantTimeCompare x y = 1 ↔ x = y := by
  unfold constantTimeCompare
  by_cases hlen : x.length = y.length
  · simp only [hlen, ne_eq, not_true_eq_false, if_false]
    rw [constantTimeByteEq_zero _ (foldl_or_xor_lt _ 0 (by decide)), foldl_or_xor_eq_zero,
      zip_forall_eq hlen]
    simp
  · simp only [ne_eq, hlen, not_false_eq_true, if_true]
    constructor
    · intro h
      cases h
    · intro h
      exact absurd (congrArg List.length h) hlen

theorem hmacEqual_iff (x y : Bytes) : hmacEqual x y = true ↔ x = y := by
  simp [hmacEqual, constantTimeCompare_eq_one]

theorem verifySignature_iff (signature body : Bytes) :
    verifySignature signature body = true ↔ signature = expectedSignature body := by
  simp only [verifySignature, hmacEqual_iff, expectedSignature]
  exact eq_comm

theorem verifySignature_expected (body : Bytes) :
    verifySignature (expectedSignature body) body = true :=
  (verifySignature_iff _ _).2 rfl

theorem verifySignature_eq_false {signature body : Bytes}
    (h : signature ≠ expectedSignature body) : verifySignature signature body = false := by
  cases hv : verifySignature signature body with
  | false => rfl
  | true => exact absurd ((verifySignature_iff _ _).1 hv) h

theorem beBytes_length (w x : Nat) : (beBytes w x).length = w := by
  induction w generalizing x with
  | zero => rfl
  | succ n ih => simp [beBytes, ih]

theorem sha256_length (msg : Bytes) : (sha256 msg).length = 32 := by
  simp [sha256, beBytes_length]

theorem hmacSHA256_length (key msg : Bytes) : (hmacSHA256 key msg).length = 32 := by
  simp [hmacSHA256, sha256_length]

theorem hexEncode_length (b : Bytes) : (hexEncode b).length = 2 * b.length := by
  induction b with
  | nil => rfl
  | cons v rest ih => simp [hexEncode, ih]; omega

theorem str_sha256_length : (str "sha256=").length = 7 := by decide

theorem expectedSignature_length (body : Bytes) : (expectedSignature body).length = 71 := by
  simp [expectedSignature, hexEncode_length, hmacSHA256_length, str_sha256_length]

theorem hextable_getD_isHexDigit (i : Nat) (h : i < 16) :
    isHexDigit (hextable.getD i 0) = true := by
  interval_cases i <;> decide

theorem hexEncode_isHexDigit (b : Bytes) : ∀ c ∈ hexEncode b, isHexDigit c = true := by
  induction b with
  | nil => simp [hexEncode]
  | cons v rest ih =>
    intro c hc
    simp only [hexEncode, List.mem_cons] at hc
    rcases hc with rfl | rfl | hc
    · apply hextable_getD_isHexDigit
      have := v.isLt
      rw [Nat.shiftRight_eq_div_pow]
      omega
    · apply hextable_getD_isHexDigit
      exact Nat.and_lt_two_pow _ (n := 4) (by decide)
    · exact ih c hc

theorem expectedSignature_hex (body : Bytes) (i : Nat) (h7 : 7 ≤ i) (hi : i < 71) :
    isHexDigit ((expectedSignature body).getD i 0) = true := by
  apply hexEncode_isHexDigit (hmacSHA256 webhookSecret body)
  have hlen : (hexEncode (hmacSHA256 webhookSecret body)).length = 64 := by
    simp [hexEncode_length, hmacSHA256_length]
  unfold expectedSignature
  rw [List.getD_eq_getElem?_getD, List.getElem?_append_right (by rw [str_sha256_length]; exact h7)]
  rw [str_sha256_length]
  have hlt : i - 7 < (hexEncode (hmacSHA256 webhookSecret body)).length := by omega
  rw [List.getElem?_eq_getElem hlt]
  exact List.getElem_mem _

theorem flipBit_ne (s : Bytes) (i k : Nat) (hi : i < s.length) (hk : k < 8) :
    flipBit s i k ≠ s := by
  intro h
  have hget := congrArg (fun l => l.getD i 0) h
  simp only [flipBit, List.getD_eq_getElem?_getD, List.getElem?_set_self hi,
    List.getElem?_eq_getElem hi, Option.getD_some] at hget
  have hval := congrArg Fin.val hget
  have hb : (s[i]).val < 2 ^ 8 := (s[i]).isLt
  have hp : 2 ^ k < 2 ^ 8 := Nat.pow_lt_pow_right (by decide) hk
  have hx : (s[i]).val ^^^ 2 ^ k < 2 ^ 8 := Nat.xor_lt_two_pow hb hp
  simp only [toByte] at hval
  rw [Nat.mod_eq_of_lt (show (s[i]).val ^^^ 2 ^ k < 256 from hx)] at hval
  have h0 : (s[i]).val ^^^ ((s[i]).val ^^^ 2 ^ k) = (s[i]).val ^^^ (s[i]).val := by rw [hval]
  rw [Nat.xor_cancel_left, Nat.xor_self] at h0
  exact absurd h0 (by positivity)


/-! ## The decoder does not depend on its bound -/

theorem skipSpace_length_le (l : Bytes) : (skipSpace l).length ≤ l.length := by
  induction l with
  | nil => simp [skipSpace]
  | cons c rest ih =>
    simp only [skipSpace]
    split
    · exact Nat.le_succ_of_le ih
    · exact Nat.le_refl _

theorem scanString_length_aux (n : Nat) :
    ∀ l : Bytes, l.length ≤ n → (scanString l).2.length ≤ l.length := by
  induction n with
  | zero =>
    intro l hl
    cases l with
    | nil => simp [scanString]
    | cons c rest => simp at hl
  | succ n ih =>
    intro l hl
    match l with
    | [] => simp [scanString]
    | [c] =>
      rw [scanString.eq_2]
      split
      · simp
      · split <;> simp [scanString]
    | c :: e :: rest1 =>
      rw [scanString.eq_3]
      split
      · simp
      · split
        · have h1 := ih rest1 (by simp at hl; omega)
          simp only [List.length_cons]
          omega
        · have h1 := ih (e :: rest1) (by simpa using hl)
          simp only [List.length_cons] at h1 ⊢
          omega

theorem scanString_length_le (l : Bytes) : (scanString l).2.length ≤ l.length :=
  scanString_length_aux l.length l (Nat.le_refl _)

theorem rescanLiteral_length_le (data : Bytes) : (rescanLiteral data).2.length ≤ data.length := by
  cases data with
  | nil => simp [rescanLiteral]
  | cons c rest =>
    simp only [rescanLiteral]
    split
    · have := scanString_length_le rest
      simp only [List.length_cons]
      omega
    · split
      · have := (List.dropWhile_sublist isNumberByte (l := rest)).length_le
        simp only [List.length_cons]
        omega
      · split
        · simp; omega
        · split
          · simp; omega
          · split
            · simp; omega
            · simp

theorem skipSpace_cons_length {l rest : Bytes} {e : Byte} (h : skipSpace l = e :: rest) :
    rest.length + 1 ≤ l.length := by
  have := skipSpace_length_le l
  rw [h] at this
  simpa using this

theorem decode_length_le (f : Nat) :
    (∀ v d data r, value f v d data = some r → r.2.length ≤ data.length) ∧
    (∀ first d data r, arrayElements f first d data = some r → r.2.length ≤ data.length) ∧
    (∀ first v d data r, objectMembers f first v d data = some r →
      r.2.length ≤ data.length) := by
  induction f with
  | zero =>
    refine ⟨?_, ?_, ?_⟩
    · intro v d data r h
      rw [value.eq_1] at h
      cases h
    · intro first d data r h
      rw [arrayElements.eq_1] at h
      cases h
    · intro first v d data r h
      rw [objectMembers.eq_1] at h
      cases h
  | succ f ih =>
    obtain ⟨ihv, iha, iho⟩ := ih
    refine ⟨?_, ?_, ?_⟩
    · intro v d data r h
      cases data with
      | nil =>
        rw [value.eq_2] at h
        cases h
      | cons c rest =>
        have hsk := skipSpace_length_le rest
        rw [value.eq_3] at h
        split at h
        · have := iha _ _ _ _ h
          simp only [List.length_cons]
          omega
        · split at h
          · split at h
            · have := iho _ _ _ _ _ h
              simp only [List.length_cons]
              omega
            · have := iho _ _ _ _ _ h
              simp only [List.length_cons]
              omega
          · have hrl := rescanLiteral_length_le (c :: rest)
            rcases hlit : rescanLiteral (c :: rest) with ⟨item, after⟩
            rw [hlit] at h hrl
            simp only at h hrl
            split at h
            · cases h
              exact hrl
            · cases hst : literalStore item v d with
              | none =>
                rw [hst] at h
                cases h
              | some d1 =>
                rw [hst] at h
                cases h
                exact hrl
    · intro first d data r h
      cases data with
      | nil =>
        rw [arrayElements.eq_2] at h
        cases h
      | cons c rest =>
        rw [arrayElements.eq_3] at h
        split at h
        · cases h
          simp
        · cases hval : value f Target.invalid d (c :: rest) with
          | none =>
            rw [hval] at h
            cases h
          | some p =>
            obtain ⟨d1, after⟩ := p
            have hafter := ihv _ _ _ _ hval
            rw [hval] at h
            simp only at h hafter
            cases hsp : skipSpace after with
            | nil =>
              rw [hsp] at h
              cases h
            | cons e rest1 =>
              have hlen := skipSpace_cons_length hsp
              rw [hsp] at h
              simp only at h
              split at h
              · cases h
                simp only
                omega
              · split at h
                · have h1 := iha _ _ _ _ h
                  have h2 := skipSpace_length_le rest1
                  omega
                · cases h
    · intro first v d data r h
      cases data with
      | nil =>
        rw [objectMembers.eq_2] at h
        cases h
      | cons c rest =>
        rw [objectMembers.eq_3] at h
        split at h
        · cases h
          simp
        · split at h
          · cases h
          · have hrl := rescanLiteral_length_le (c :: rest)
            rcases hlit : rescanLiteral (c :: rest) with ⟨item, after⟩
            rw [hlit] at h hrl
            simp only at h hrl
            split at h
            · cases h
            · rename_i subv _
              cases hsp : skipSpace after with
              | nil =>
                rw [hsp] at h
                cases h
              | cons colon rest1 =>
                have hlen := skipSpace_cons_length hsp
                rw [hsp] at h
                simp only at h
                split at h
                · cases h
                · cases hval : value f subv d (skipSpace rest1) with
                  | none =>
                    rw [hval] at h
                    cases h
                  | some p =>
                    obtain ⟨d1, after1⟩ := p
                    have hafter := ihv _ _ _ _ hval
                    have hsk1 := skipSpace_length_le rest1
                    rw [hval] at h
                    simp only at h hafter
                    cases hsp2 : skipSpace after1 with
                    | nil =>
                      rw [hsp2] at h
                      cases h
                    | cons e rest2 =>
                      have hlen2 := skipSpace_cons_length hsp2
                      rw [hsp2] at h
                      simp only at h
                      split at h
                      · cases h
                        simp only
                        omega
                      · split at h
                        · have h1 := iho _ _ _ _ _ h
                          have h2 := skipSpace_length_le rest2
                          omega
                        · cases h

theorem decode_fuel_succ (f : Nat) :
    (∀ v d data, 2 * data.length + 1 ≤ f → value (f + 1) v d data = value f v d data) ∧
    (∀ first d data, 2 * data.length + 2 ≤ f →
      arrayElements (f + 1) first d data = arrayElements f first d data) ∧
    (∀ first v d data, 2 * data.length + 2 ≤ f →
      objectMembers (f + 1) first v d data = objectMembers f first v d data) := by
  induction f with
  | zero =>
    refine ⟨?_, ?_, ?_⟩
    · intro v d data h
      omega
    · intro first d data h
      omega
    · intro first v d data h
      omega
  | succ f ih =>
    obtain ⟨ihv, iha, iho⟩ := ih
    refine ⟨?_, ?_, ?_⟩
    · intro v d data hf
      cases data with
      | nil => rw [value.eq_2, value.eq_2]
      | cons c rest =>
        have hsk := skipSpace_length_le rest
        have hb : 2 * (skipSpace rest).length + 2 ≤ f := by
          simp only [List.length_cons] at hf
          omega
        rw [value.eq_3, value.eq_3, iha _ _ _ hb, iho _ _ _ _ hb, iho _ _ _ _ hb]
    · intro first d data hf
      cases data with
      | nil => rw [arrayElements.eq_2, arrayElements.eq_2]
      | cons c rest =>
        have hb : 2 * (c :: rest).length + 1 ≤ f := by omega
        rw [arrayElements.eq_3, arrayElements.eq_3, ihv _ _ _ hb]
        split
        · rfl
        · cases hval : value f Target.invalid d (c :: rest) with
          | none => rfl
          | some p =>
            obtain ⟨d1, after⟩ := p
            have hafter := (decode_length_le f).1 _ _ _ _ hval
            simp only at hafter ⊢
            cases hsp : skipSpace after with
            | nil => rfl
            | cons e rest1 =>
              have hlen := skipSpace_cons_length hsp
              have h2 := skipSpace_length_le rest1
              have hb2 : 2 * (skipSpace rest1).length + 2 ≤ f := by omega
              simp only
              rw [iha _ _ _ hb2]
    · intro first v d data hf
      cases data with
      | nil => rw [objectMembers.eq_2, objectMembers.eq_2]
      | cons c rest =>
        rw [objectMembers.eq_3, objectMembers.eq_3]
        split
        · rfl
        · split
          · rfl
          · have hrl := rescanLiteral_length_le (c :: rest)
            rcases hlit : rescanLiteral (c :: rest) with ⟨item, after⟩
            rw [hlit] at hrl
            simp only at hrl ⊢
            split
            · rfl
            · rename_i subv _
              cases hsp : skipSpace after with
              | nil => rfl
              | cons colon rest1 =>
                have hlen := skipSpace_cons_length hsp
                have hsk1 := skipSpace_length_le rest1
                have hb : 2 * (skipSpace rest1).length + 1 ≤ f := by omega
                simp only
                rw [ihv _ _ _ hb]
                split
                · rfl
                · cases hval : value f subv d (skipSpace rest1) with
                  | none => rfl
                  | some p =>
                    obtain ⟨d1, after1⟩ := p
                    have hafter := (decode_length_le f).1 _ _ _ _ hval
                    simp only at hafter ⊢
                    cases hsp2 : skipSpace after1 with
                    | nil => rfl
                    | cons e rest2 =>
                      have hlen2 := skipSpace_cons_length hsp2
                      have h2 := skipSpace_length_le rest2
                      have hb2 : 2 * (skipSpace rest2).length + 2 ≤ f := by omega
                      simp only
                      rw [iho _ _ _ _ hb2]

theorem value_fuel_add (k : Nat) (v : Target) (d : DecodeState) (data : Bytes) :
    value (2 * data.length + 1 + k) v d data = value (2 * data.length + 1) v d data := by
  induction k with
  | zero => rfl
  | succ k ih =>
    rw [← ih, ← Nat.add_assoc]
    exact (decode_fuel_succ _).1 v d data (Nat.le_add_right _ _)

/-- The decoder's result does not depend on the bound on nested calls once the bound is at
least the one `jsonUnmarshal` uses: an error of `jsonUnmarshal` never comes from the bound
being too small. -/
theorem jsonUnmarshal_bound_irrelevant (data : Bytes) (fuel : Nat)
    (h : 2 * data.length + 2 ≤ fuel) (v : Target) (d : DecodeState) :
    value fuel v d (skipSpace data) = value (2 * data.length + 2) v d (skipSpace data) := by
  have hsk := skipSpace_length_le data
  have e1 : fuel = 2 * (skipSpace data).length + 1 + (fuel - (2 * (skipSpace data).length + 1)) := by
    omega
  have e2 : 2 * data.length + 2 =
      2 * (skipSpace data).length + 1 + (2 * data.length + 2 - (2 * (skipSpace data).length + 1)) := by
    omega
  rw [e1, value_fuel_add, e2, value_fuel_add]


/-! ## The decoder succeeds on every input the scanner accepts -/

theorem checkValidFrom_cons (s : Scanner) (c : Byte) (rest : Bytes) :
    checkValidFrom s (c :: rest) = true ↔
      (s.doStep c).2 ≠ .scanError ∧ checkValidFrom (s.doStep c).1 rest = true := by
  rw [checkValidFrom]
  rcases h : s.doStep c with ⟨s1, op⟩
  cases op <;> simp

theorem checkValidFrom_dead (s : Scanner) (data : Bytes) (h1 : s.step = .stateError)
    (h2 : s.err = true) : checkValidFrom s data = false := by
  cases data with
  | nil => simp [checkValidFrom, Scanner.eof, h2]
  | cons c rest =>
    rw [checkValidFrom]
    simp [Scanner.doStep, h1]

theorem stateEndValue_step (st st1 : ScanState) (e : Bool) (stack : List ParseState) (er : Bool)
    (c : Byte) :
    stateEndValue ⟨st, e, stack, er⟩ c = stateEndValue ⟨st1, e, stack, er⟩ c := by
  cases stack with
  | nil => simp [stateEndValue, stateEndTop, Scanner.error]
  | cons ps rest =>
    cases ps <;> simp [stateEndValue, Scanner.error, Scanner.popParseState]

theorem checkValidFrom_endTop (rest : Bytes) :
    checkValidFrom ⟨.stateEndTop, true, [], false⟩ rest =
      checkValidFrom (scannerAt .stateEndValue []) rest := by
  cases rest with
  | nil => decide
  | cons c r =>
    rw [checkValidFrom, checkValidFrom]
    simp [Scanner.doStep, stateEndValue, scannerAt]

theorem checkValidFrom_pop (st : ScanState) (ps : ParseState) (stack : List ParseState)
    (rest : Bytes) :
    checkValidFrom (scannerAt st (ps :: stack)).popParseState rest =
      checkValidFrom (scannerAt .stateEndValue stack) rest := by
  cases stack with
  | nil =>
    rw [← checkValidFrom_endTop]
    rfl
  | cons q stack1 => rfl

theorem doStep_space {st : ScanState} {stack : List ParseState} (h : skipsSpace st stack)
    (c : Byte) (hc : isSpace c = true) :
    (scannerAt st stack).doStep c = (scannerAt st stack, .scanSkipSpace) := by
  rcases h with rfl | rfl | rfl | rfl | ⟨rfl, hne⟩
  · simp [Scanner.doStep, stateBeginValue, scannerAt, hc]
  · simp [Scanner.doStep, stateBeginValueOrEmpty, scannerAt, hc]
  · simp [Scanner.doStep, stateBeginString, scannerAt, hc]
  · simp [Scanner.doStep, stateBeginStringOrEmpty, scannerAt, hc]
  · cases stack with
    | nil => exact absurd rfl hne
    | cons ps rest => simp [Scanner.doStep, stateEndValue, scannerAt, hc]

theorem checkValidFrom_skipSpace {st : ScanState} {stack : List ParseState}
    (h : skipsSpace st stack) (data : Bytes) :
    checkValidFrom (scannerAt st stack) (skipSpace data) =
      checkValidFrom (scannerAt st stack) data := by
  induction data with
  | nil => rfl
  | cons c rest ih =>
    rw [skipSpace]
    split
    · rename_i hc
      rw [ih]
      conv_rhs => rw [checkValidFrom]
      rw [doStep_space h c hc]
    · rfl

theorem checkValidFrom_nil_false {st : ScanState} {stack : List ParseState}
    (h : skipsSpace st stack) : checkValidFrom (scannerAt st stack) [] = false := by
  have hsp : isSpace (0x20 : Byte) = true := by decide
  have hd := doStep_space h _ hsp
  simp only [checkValidFrom, Scanner.eof, hd]
  simp [scannerAt]

theorem skipSpace_head {data rest : Bytes} {c : Byte} (h : skipSpace data = c :: rest) :
    isSpace c = false := by
  induction data with
  | nil => simp [skipSpace] at h
  | cons a tl ih =>
    rw [skipSpace] at h
    split at h
    · exact ih h
    · rename_i ha
      cases h
      simpa using ha

/-- After white space the input the scanner accepts goes on with a byte that is not white
space. -/
theorem valid_skipSpace {st : ScanState} {stack : List ParseState} (h : skipsSpace st stack)
    {data : Bytes} (hv : checkValidFrom (scannerAt st stack) data = true) :
    ∃ c rest, skipSpace data = c :: rest ∧ isSpace c = false ∧
      checkValidFrom (scannerAt st stack) (c :: rest) = true := by
  rw [← checkValidFrom_skipSpace h] at hv
  cases hsk : skipSpace data with
  | nil =>
    rw [hsk, checkValidFrom_nil_false h] at hv
    cases hv
  | cons c rest =>
    rw [hsk] at hv
    exact ⟨c, rest, rfl, skipSpace_head hsk, hv⟩

theorem doStep_endValue (stack : List ParseState) (c : Byte) :
    (scannerAt .stateEndValue stack).doStep c = stateEndValue (scannerAt .stateEndValue stack) c := by
  simp [Scanner.doStep, scannerAt]

theorem stateEndValue_scannerAt (st : ScanState) (stack : List ParseState) (c : Byte) :
    stateEndValue (scannerAt st stack) c = (scannerAt .stateEndValue stack).doStep c := by
  rw [doStep_endValue]
  exact stateEndValue_step _ _ _ _ _ _

theorem isNumberByte_facts :
    ∀ c : Byte, isNumberByte c = true →
      isSpace c = false ∧ c.val ≠ 0x3A ∧ c.val ≠ 0x2C ∧ c.val ≠ 0x7D ∧ c.val ≠ 0x5D := by
  decide

/-- A byte of a number is not accepted after the end of a value. -/
theorem endValue_numberByte (stack : List ParseState) (c : Byte) (rest : Bytes)
    (hc : isNumberByte c = true) :
    checkValidFrom (scannerAt .stateEndValue stack) (c :: rest) = false := by
  obtain ⟨h1, h2, h3, h4, h5⟩ := isNumberByte_facts c hc
  rw [checkValidFrom]
  cases stack with
  | nil =>
    have hd : (scannerAt .stateEndValue []).doStep c =
        (⟨.stateError, true, [], true⟩, .scanEnd) := by
      simp [Scanner.doStep, stateEndValue, stateEndTop, Scanner.error, scannerAt, h1]
    rw [hd]
    exact checkValidFrom_dead _ _ rfl rfl
  | cons ps stack1 =>
    cases ps <;>
      simp [Scanner.doStep, stateEndValue, Scanner.error, scannerAt, h1, h2, h3, h4, h5]

theorem numState_step (stack : List ParseState) (st : ScanState) (c : Byte) (h : numState st) :
    (∃ st1, numState st1 ∧ isNumberByte c = true ∧
        (scannerAt st stack).doStep c = (scannerAt st1 stack, .scanContinue)) ∨
      (scannerAt st stack).doStep c = (scannerAt st stack).error ∨
      (scannerAt st stack).doStep c = (scannerAt .stateEndValue stack).doStep c := by
  have hd : isDigit c = true → isNumberByte c = true := by
    intro h1; simp [isNumberByte, h1]
  have hdot : c.val = 0x2E → isNumberByte c = true := by
    intro h1; simp [isNumberByte, h1]
  have he : c.val = 0x65 → isNumberByte c = true := by
    intro h1; simp [isNumberByte, h1]
  have hE : c.val = 0x45 → isNumberByte c = true := by
    intro h1; simp [isNumberByte, h1]
  have hp : c.val = 0x2B → isNumberByte c = true := by
    intro h1; simp [isNumberByte, h1]
  have hm : c.val = 0x2D → isNumberByte c = true := by
    intro h1; simp [isNumberByte, h1]
  have h0 : c.val = 0x30 → isNumberByte c = true := by
    intro h1; simp [isNumberByte, isDigit, h1]
  have h19 : (0x31 ≤ c.val ∧ c.val ≤ 0x39) → isNumberByte c = true := by
    intro h1
    apply hd
    simp only [isDigit, decide_eq_true_eq]
    omega
  have hend := stateEndValue_scannerAt
  rcases h with rfl | rfl | rfl | rfl | rfl | rfl | rfl | rfl
  · -- stateNeg
    by_cases c0 : c.val = 0x30
    · exact Or.inl ⟨.state0, by simp [numState], h0 c0,
        by simp [Scanner.doStep, scannerAt, c0]⟩
    · by_cases c1 : 0x31 ≤ c.val ∧ c.val ≤ 0x39
      · exact Or.inl ⟨.state1, by simp [numState], h19 c1,
          by simp [Scanner.doStep, scannerAt, c0, c1]⟩
      · exact Or.inr (Or.inl (by simp [Scanner.doStep, scannerAt, c0, c1]))
  · -- state1
    by_cases cd : isDigit c = true
    · exact Or.inl ⟨.state1, by simp [numState], hd cd,
        by simp [Scanner.doStep, scannerAt, cd]⟩
    · by_cases c1 : c.val = 0x2E
      · exact Or.inl ⟨.stateDot, by simp [numState], hdot c1,
          by simp [Scanner.doStep, state0, scannerAt, cd, c1]⟩
      · by_cases c2 : c.val = 0x65 ∨ c.val = 0x45
        · exact Or.inl ⟨.stateE, by simp [numState], c2.elim he hE,
            by simp [Scanner.doStep, state0, scannerAt, cd, c1, c2]⟩
        · refine Or.inr (Or.inr ?_)
          rw [← hend .state1]
          simp [Scanner.doStep, state0, scannerAt, cd, c1, c2]
  · -- state0
    by_cases c1 : c.val = 0x2E
    · exact Or.inl ⟨.stateDot, by simp [numState], hdot c1,
        by simp [Scanner.doStep, state0, scannerAt, c1]⟩
    · by_cases c2 : c.val = 0x65 ∨ c.val = 0x45
      · exact Or.inl ⟨.stateE, by simp [numState], c2.elim he hE,
          by simp [Scanner.doStep, state0, scannerAt, c1, c2]⟩
      · refine Or.inr (Or.inr ?_)
        rw [← hend .state0]
        simp [Scanner.doStep, state0, scannerAt, c1, c2]
  · -- stateDot
    by_cases cd : isDigit c = true
    · exact Or.inl ⟨.stateDot0, by simp [numState], hd cd,
        by simp [Scanner.doStep, scannerAt, cd]⟩
    · exact Or.inr (Or.inl (by simp [Scanner.doStep, scannerAt, cd]))
  · -- stateDot0
    by_cases cd : isDigit c = true
    · exact Or.inl ⟨.stateDot0, by simp [numState], hd cd,
        by simp [Scanner.doStep, scannerAt, cd]⟩
    · by_cases c2 : c.val = 0x65 ∨ c.val = 0x45
      · exact Or.inl ⟨.stateE, by simp [numState], c2.elim he hE,
          by simp [Scanner.doStep, scannerAt, cd, c2]⟩
      · refine Or.inr (Or.inr ?_)
        rw [← hend .stateDot0]
        simp [Scanner.doStep, scannerAt, cd, c2]
  · -- stateE
    by_cases c1 : c.val = 0x2B ∨ c.val = 0x2D
    · exact Or.inl ⟨.stateESign, by simp [numState], c1.elim hp hm,
        by simp [Scanner.doStep, scannerAt, c1]⟩
    · by_cases cd : isDigit c = true
      · exact Or.inl ⟨.stateE0, by simp [numState], hd cd,
          by simp [Scanner.doStep, stateESign, scannerAt, c1, cd]⟩
      · exact Or.inr (Or.inl (by simp [Scanner.doStep, stateESign, scannerAt, c1, cd]))
  · -- stateESign
    by_cases cd : isDigit c = true
    · exact Or.inl ⟨.stateE0, by simp [numState], hd cd,
        by simp [Scanner.doStep, stateESign, scannerAt, cd]⟩
    · exact Or.inr (Or.inl (by simp [Scanner.doStep, stateESign, scannerAt, cd]))
  · -- stateE0
    by_cases cd : isDigit c = true
    · exact Or.inl ⟨.stateE0, by simp [numState], hd cd,
        by simp [Scanner.doStep, scannerAt, cd]⟩
    · refine Or.inr (Or.inr ?_)
      rw [← hend .stateE0]
      simp [Scanner.doStep, scannerAt, cd]

theorem checkValidFrom_congr {s s1 : Scanner} {c : Byte} (h : s.doStep c = s1.doStep c)
    (rest : Bytes) : checkValidFrom s (c :: rest) = checkValidFrom s1 (c :: rest) := by
  rw [checkValidFrom, checkValidFrom, h]

theorem checkValidFrom_error_step {s : Scanner} {c : Byte} (h : s.doStep c = s.error)
    (rest : Bytes) : checkValidFrom s (c :: rest) = false := by
  rw [checkValidFrom, h]
  rfl

theorem number_valid (stack : List ParseState) :
    ∀ (rest : Bytes) (st : ScanState), numState st →
      checkValidFrom (scannerAt st stack) rest = true →
      checkValidFrom (scannerAt .stateEndValue stack) (rest.dropWhile isNumberByte) = true := by
  intro rest
  induction rest with
  | nil =>
    intro st hst hv
    rcases numState_step stack st 0x20 hst with ⟨st1, _, hnb, _⟩ | herr | hdel
    · exact absurd hnb (by decide)
    · simp only [checkValidFrom, Scanner.eof, herr] at hv
      simp [Scanner.error, scannerAt] at hv
    · simp only [List.dropWhile_nil]
      simp only [checkValidFrom, Scanner.eof, hdel] at hv ⊢
      exact hv
  | cons c r ih =>
    intro st hst hv
    by_cases hc : isNumberByte c = true
    · rw [List.dropWhile_cons_of_pos hc]
      rcases numState_step stack st c hst with ⟨st1, hst1, _, hstep⟩ | herr | hdel
      · rw [checkValidFrom_cons, hstep] at hv
        exact ih st1 hst1 hv.2
      · rw [checkValidFrom_error_step herr] at hv
        cases hv
      · rw [checkValidFrom_congr hdel, endValue_numberByte stack c r hc] at hv
        cases hv
    · rw [List.dropWhile_cons_of_neg hc]
      rcases numState_step stack st c hst with ⟨st1, _, hnb, _⟩ | herr | hdel
      · exact absurd hnb hc
      · rw [checkValidFrom_error_step herr] at hv
        cases hv
      · rw [← checkValidFrom_congr hdel]
        exact hv

theorem expect_valid {st next : ScanState} {want : Nat} {stack : List ParseState}
    (hstep : ∀ c, (scannerAt st stack).doStep c = expectByte (scannerAt st stack) c want next)
    (hw : want ≠ 0x20) {data : Bytes}
    (hv : checkValidFrom (scannerAt st stack) data = true) :
    ∃ c rest, data = c :: rest ∧ c.val = want ∧
      checkValidFrom (scannerAt next stack) rest = true := by
  cases data with
  | nil =>
    simp only [checkValidFrom, Scanner.eof, hstep] at hv
    have h20 : ¬ (0x20 : Byte).val = want := fun h => hw h.symm
    simp [expectByte, scannerAt, Scanner.error, h20] at hv
  | cons c rest =>
    rw [checkValidFrom_cons, hstep] at hv
    by_cases hc : c.val = want
    · refine ⟨c, rest, rfl, hc, ?_⟩
      have := hv.2
      simpa [expectByte, hc, scannerAt] using this
    · have := hv.1
      simp [expectByte, hc, Scanner.error] at this

theorem scanString_cons (c : Byte) (rest : Bytes) :
    scanString (c :: rest) =
      if c.val = 0x22 then ([c], rest)
      else if c.val = 0x5C then
        match rest with
        | [] => ([c], [])
        | e :: rest1 => (c :: e :: (scanString rest1).1, (scanString rest1).2)
      else (c :: (scanString rest).1, (scanString rest).2) := by
  cases rest with
  | nil => simp [scanString]
  | cons e rest1 => simp [scanString]

theorem isHexDigit_plain : ∀ c : Byte, isHexDigit c = true → c.val ≠ 0x22 ∧ c.val ≠ 0x5C := by
  decide

theorem strState_nil (stack : List ParseState) (k : Nat)
    (hk : k = 0 ∨ k = 2 ∨ k = 3 ∨ k = 4 ∨ k = 5) :
    checkValidFrom (scannerAt (strState k) stack) [] = false := by
  have h20 : (32 : Byte).val = 32 := rfl
  rcases hk with rfl | rfl | rfl | rfl | rfl <;>
    simp [checkValidFrom, Scanner.eof, Scanner.doStep, strState, scannerAt, Scanner.error,
      isHexDigit, isDigit, h20]

/-- A string the scanner accepts from inside a literal: `scanString` cuts it after the
closing quote, the scanner is at the end of a value there, and the bytes before the quote
are an accepted string body. -/
theorem string_valid (stack : List ParseState) (n : Nat) :
    ∀ (l : Bytes) (k : Nat), l.length ≤ n → (k = 0 ∨ k = 2 ∨ k = 3 ∨ k = 4 ∨ k = 5) →
      checkValidFrom (scannerAt (strState k) stack) l = true →
      checkValidFrom (scannerAt .stateEndValue stack) (scanString l).2 = true ∧
      ∃ inner, (scanString l).1 = inner ++ [(0x22 : Byte)] ∧ strRun k inner = true := by
  induction n with
  | zero =>
    intro l k hl hk hv
    cases l with
    | nil =>
      rw [strState_nil stack k hk] at hv
      cases hv
    | cons c rest => simp at hl
  | succ n ih =>
    intro l k hl hk hv
    cases l with
    | nil =>
      rw [strState_nil stack k hk] at hv
      cases hv
    | cons c rest =>
      have hrest : rest.length ≤ n := by simpa using hl
      rw [checkValidFrom_cons] at hv
      rcases hk with rfl | hk
      · -- plain text
        by_cases hq : c.val = 0x22
        · have hstep : (scannerAt (strState 0) stack).doStep c =
              (scannerAt .stateEndValue stack, .scanContinue) := by
            simp [Scanner.doStep, strState, scannerAt, hq]
          rw [hstep] at hv
          rw [scanString_cons]
          simp only [hq, if_true]
          refine ⟨hv.2, [], ?_, by simp [strRun]⟩
          have hc : c = (0x22 : Byte) := Fin.ext hq
          simp [hc]
        · by_cases hb : c.val = 0x5C
          · have hstep : (scannerAt (strState 0) stack).doStep c =
                (scannerAt .stateInStringEsc stack, .scanContinue) := by
              simp [Scanner.doStep, strState, scannerAt, hq, hb]
            rw [hstep] at hv
            cases rest with
            | nil =>
              have := hv.2
              have h20 : (32 : Byte).val = 32 := rfl
              simp [checkValidFrom, Scanner.eof, Scanner.doStep, scannerAt, Scanner.error,
                h20] at this
            | cons e rest1 =>
              have hrest1 : rest1.length ≤ n := by
                simp only [List.length_cons] at hrest
                omega
              have hv2 := hv.2
              rw [checkValidFrom_cons] at hv2
              rw [scanString_cons]
              simp only [hq, hb, if_false, if_true]
              by_cases he : e.val = 0x62 ∨ e.val = 0x66 ∨ e.val = 0x6E ∨ e.val = 0x72 ∨
                  e.val = 0x74 ∨ e.val = 0x5C ∨ e.val = 0x2F ∨ e.val = 0x22
              · have hstep2 : (scannerAt .stateInStringEsc stack).doStep e =
                    (scannerAt (strState 0) stack, .scanContinue) := by
                  simp [Scanner.doStep, strState, scannerAt, he]
                rw [hstep2] at hv2
                obtain ⟨h1, inner, h2, h3⟩ := ih rest1 0 hrest1 (Or.inl rfl) hv2.2
                refine ⟨h1, c :: e :: inner, by simp [h2], ?_⟩
                simp [strRun, hq, hb, he, h3]
              · by_cases hu : e.val = 0x75
                · have hstep2 : (scannerAt .stateInStringEsc stack).doStep e =
                      (scannerAt (strState 5) stack, .scanContinue) := by
                    simp [Scanner.doStep, strState, scannerAt, he, hu]
                  rw [hstep2] at hv2
                  obtain ⟨h1, inner, h2, h3⟩ :=
                    ih rest1 5 hrest1 (Or.inr (Or.inr (Or.inr (Or.inr rfl)))) hv2.2
                  refine ⟨h1, c :: e :: inner, by simp [h2], ?_⟩
                  simp [strRun, hq, hb, he, hu, h3]
                · have := hv2.1
                  simp [Scanner.doStep, scannerAt, he, hu, Scanner.error] at this
          · by_cases hctl : c.val < 0x20
            · have := hv.1
              simp [Scanner.doStep, strState, scannerAt, hq, hb, hctl, Scanner.error] at this
            · have hstep : (scannerAt (strState 0) stack).doStep c =
                  (scannerAt (strState 0) stack, .scanContinue) := by
                simp [Scanner.doStep, strState, scannerAt, hq, hb, hctl]
              rw [hstep] at hv
              obtain ⟨h1, inner, h2, h3⟩ := ih rest 0 hrest (Or.inl rfl) hv.2
              rw [scanString_cons]
              simp only [hq, hb, if_false]
              refine ⟨h1, c :: inner, by simp [h2], ?_⟩
              simp [strRun, hq, hb, hctl, h3]
      · -- hexadecimal digits of an escape
        by_cases hx : isHexDigit c = true
        · have hnq : c.val ≠ 0x22 ∧ c.val ≠ 0x5C := isHexDigit_plain c hx
          obtain ⟨k1, hk1, hstep, hrun⟩ : ∃ k1, (k1 = 0 ∨ k1 = 2 ∨ k1 = 3 ∨ k1 = 4 ∨ k1 = 5) ∧
              (scannerAt (strState k) stack).doStep c =
                (scannerAt (strState k1) stack, .scanContinue) ∧
              ∀ inner, strRun k1 inner = true → strRun k (c :: inner) = true := by
            rcases hk with rfl | rfl | rfl | rfl
            · exact ⟨0, by simp, by simp [Scanner.doStep, strState, scannerAt, hx],
                by intro inner h; simp [strRun, hx, h]⟩
            · exact ⟨2, by simp, by simp [Scanner.doStep, strState, scannerAt, hx],
                by intro inner h; simp [strRun, hx, h]⟩
            · exact ⟨3, by simp, by simp [Scanner.doStep, strState, scannerAt, hx],
                by intro inner h; simp [strRun, hx, h]⟩
            · exact ⟨4, by simp, by simp [Scanner.doStep, strState, scannerAt, hx],
                by intro inner h; simp [strRun, hx, h]⟩
          rw [hstep] at hv
          obtain ⟨h1, inner, h2, h3⟩ := ih rest k1 hrest hk1 hv.2
          rw [scanString_cons]
          simp only [hnq.1, hnq.2, if_false]
          exact ⟨h1, c :: inner, by simp [h2], hrun inner h3⟩
        · have := hv.1
          rcases hk with rfl | rfl | rfl | rfl <;>
            simp [Scanner.doStep, strState, scannerAt, hx, Scanner.error] at this


theorem strRun_high (c : Byte) (rest : Bytes) (h : 0x80 ≤ c.val) :
    strRun 0 (c :: rest) = strRun 0 rest := by
  have h1 : ¬ (c.val = 0x22 ∨ c.val < 0x20) := by omega
  have h2 : ¬ c.val = 0x5C := by omega
  simp [strRun, h1, h2]

theorem acceptLo_ge (p0 : Nat) : 0x80 ≤ acceptLo p0 := by
  unfold acceptLo
  split_ifs <;> omega

theorem runeWidth_range (p0 : Nat) : 2 ≤ runeWidth p0 ∧ runeWidth p0 ≤ 4 := by
  unfold runeWidth
  split_ifs <;> omega

/-- The width `utf8.DecodeRune` reports is 1, or the bytes after the first that it covers
are all continuation bytes. -/
theorem decodeRune_width (c : Byte) (rest : Bytes) :
    (decodeRune (c :: rest)).2 = 1 ∨
    (∃ b1 r, rest = b1 :: r ∧ 0x80 ≤ b1.val ∧ (decodeRune (c :: rest)).2 = 2) ∨
    (∃ b1 b2 r, rest = b1 :: b2 :: r ∧ 0x80 ≤ b1.val ∧ 0x80 ≤ b2.val ∧
      (decodeRune (c :: rest)).2 = 3) ∨
    (∃ b1 b2 b3 r, rest = b1 :: b2 :: b3 :: r ∧ 0x80 ≤ b1.val ∧ 0x80 ≤ b2.val ∧
      0x80 ≤ b3.val ∧ (decodeRune (c :: rest)).2 = 4) := by
  have hlo := acceptLo_ge c.val
  have hw := runeWidth_range c.val
  unfold decodeRune
  simp only
  by_cases h1 : c.val < 0x80
  · rw [if_pos h1]
    exact Or.inl rfl
  rw [if_neg h1]
  by_cases h2 : c.val < 0xC2 ∨ 0xF4 < c.val
  · rw [if_pos h2]
    exact Or.inl rfl
  rw [if_neg h2]
  by_cases h3 : rest.length + 1 < runeWidth c.val
  · rw [if_pos h3]
    exact Or.inl rfl
  rw [if_neg h3]
  by_cases h4 : (rest.getD 0 0).val < acceptLo c.val ∨ acceptHi c.val < (rest.getD 0 0).val
  · rw [if_pos h4]
    exact Or.inl rfl
  rw [if_neg h4]
  rcases rest with _ | ⟨b1, rest1⟩
  · simp only [List.length_nil] at h3
    omega
  have hb1 : 0x80 ≤ b1.val := by
    simp only [List.getD_cons_zero] at h4
    omega
  by_cases h5 : runeWidth c.val ≤ 2
  · rw [if_pos h5]
    exact Or.inr (Or.inl ⟨b1, rest1, rfl, hb1, rfl⟩)
  rw [if_neg h5]
  by_cases h6 : ((b1 :: rest1).getD 1 0).val < 0x80 ∨ 0xBF < ((b1 :: rest1).getD 1 0).val
  · rw [if_pos h6]
    exact Or.inl rfl
  rw [if_neg h6]
  rcases rest1 with _ | ⟨b2, rest2⟩
  · simp only [List.length_cons, List.length_nil] at h3
    omega
  have hb2 : 0x80 ≤ b2.val := by
    simp only [List.getD_cons_succ, List.getD_cons_zero] at h6
    omega
  by_cases h7 : runeWidth c.val ≤ 3
  · rw [if_pos h7]
    exact Or.inr (Or.inr (Or.inl ⟨b1, b2, rest2, rfl, hb1, hb2, rfl⟩))
  rw [if_neg h7]
  by_cases h8 : ((b1 :: b2 :: rest2).getD 2 0).val < 0x80 ∨
      0xBF < ((b1 :: b2 :: rest2).getD 2 0).val
  · rw [if_pos h8]
    exact Or.inl rfl
  rw [if_neg h8]
  rcases rest2 with _ | ⟨b3, rest3⟩
  · simp only [List.length_cons, List.length_nil] at h3
    omega
  have hb3 : 0x80 ≤ b3.val := by
    simp only [List.getD_cons_succ, List.getD_cons_zero] at h8
    omega
  exact Or.inr (Or.inr (Or.inr ⟨b1, b2, b3, rest3, rfl, hb1, hb2, hb3, rfl⟩))

theorem strRun_drop_decodeRune (c : Byte) (rest : Bytes) (h : strRun 0 rest = true) :
    strRun 0 (rest.drop ((decodeRune (c :: rest)).2 - 1)) = true := by
  rcases decodeRune_width c rest with h1 | ⟨b1, r, rfl, hb1, h2⟩ |
    ⟨b1, b2, r, rfl, hb1, hb2, h3⟩ | ⟨b1, b2, b3, r, rfl, hb1, hb2, hb3, h4⟩
  · rw [h1]
    simpa using h
  · rw [h2]
    rw [strRun_high _ _ hb1] at h
    simpa using h
  · rw [h3]
    rw [strRun_high _ _ hb1, strRun_high _ _ hb2] at h
    simpa using h
  · rw [h4]
    rw [strRun_high _ _ hb1, strRun_high _ _ hb2, strRun_high _ _ hb3] at h
    simpa using h

theorem decodeRune_width_le (c : Byte) (rest : Bytes) :
    1 ≤ (decodeRune (c :: rest)).2 ∧ (decodeRune (c :: rest)).2 ≤ rest.length + 1 := by
  rcases decodeRune_width c rest with h1 | ⟨b1, r, rfl, hb1, h2⟩ |
    ⟨b1, b2, r, rfl, hb1, hb2, h3⟩ | ⟨b1, b2, b3, r, rfl, hb1, hb2, hb3, h4⟩
  · omega
  · simp only [List.length_cons]; omega
  · simp only [List.length_cons]; omega
  · simp only [List.length_cons]; omega

theorem strRun_plain (c : Byte) (rest : Bytes)
    (h : ¬ (c.val = 0x5C ∨ c.val = 0x22 ∨ c.val < 0x20)) :
    strRun 0 (c :: rest) = strRun 0 rest := by
  have h1 : ¬ (c.val = 0x22 ∨ c.val < 0x20) := by omega
  have h2 : ¬ c.val = 0x5C := by omega
  simp [strRun, h1, h2]

theorem strRun_drop_plainLen (f : Nat) :
    ∀ l : Bytes, strRun 0 l = true → strRun 0 (l.drop (plainLen f l)) = true := by
  induction f with
  | zero =>
    intro l h
    simpa [plainLen] using h
  | succ f ih =>
    intro l h
    cases l with
    | nil => simpa [plainLen] using h
    | cons c rest =>
      rw [plainLen.eq_3]
      by_cases h1 : c.val = 0x5C ∨ c.val = 0x22 ∨ c.val < 0x20
      · rw [if_pos h1]
        exact h
      rw [if_neg h1]
      rw [strRun_plain c rest h1] at h
      by_cases h2 : c.val < 0x80
      · rw [if_pos h2, Nat.add_comm, List.drop_succ_cons]
        exact ih rest h
      rw [if_neg h2]
      have hw := decodeRune_width_le c rest
      have hd := strRun_drop_decodeRune c rest h
      rcases hdr : decodeRune (c :: rest) with ⟨rr, size⟩
      rw [hdr] at hw hd
      simp only at hw hd ⊢
      split
      · rw [List.drop_zero, strRun_plain c rest h1]
        exact h
      · have e : size + plainLen f (List.drop (size - 1) rest) =
            (size - 1 + plainLen f (List.drop (size - 1) rest)) + 1 := by omega
        rw [e, List.drop_succ_cons, ← List.drop_drop]
        exact ih _ hd

theorem hexValue_isSome (c : Byte) : (hexValue c).isSome = isHexDigit c := by
  unfold hexValue isHexDigit isDigit
  split_ifs <;> simp_all

theorem strRun_five (h1 h2 h3 h4 : Byte) (rest : Bytes) :
    strRun 5 (h1 :: h2 :: h3 :: h4 :: rest) =
      (isHexDigit h1 && isHexDigit h2 && isHexDigit h3 && isHexDigit h4 && strRun 0 rest) := by
  simp only [strRun]
  cases isHexDigit h1 <;> cases isHexDigit h2 <;> cases isHexDigit h3 <;>
    cases isHexDigit h4 <;> simp

theorem strRun_five_inv {l : Bytes} (h : strRun 5 l = true) :
    ∃ h1 h2 h3 h4 rest, l = h1 :: h2 :: h3 :: h4 :: rest ∧ isHexDigit h1 = true ∧
      isHexDigit h2 = true ∧ isHexDigit h3 = true ∧ isHexDigit h4 = true ∧
      strRun 0 rest = true := by
  rcases l with _ | ⟨h1, _ | ⟨h2, _ | ⟨h3, _ | ⟨h4, rest⟩⟩⟩⟩
  · simp [strRun] at h
  · simp [strRun] at h
  · simp [strRun] at h
  · simp [strRun] at h
  · rw [strRun_five] at h
    simp only [Bool.and_eq_true] at h
    exact ⟨h1, h2, h3, h4, rest, rfl, h.1.1.1.1, h.1.1.1.2, h.1.1.2, h.1.2, h.2⟩

theorem getu4_isSome (b0 b1 h1 h2 h3 h4 : Byte) (rest : Bytes) (hb0 : b0.val = 0x5C)
    (hb1 : b1.val = 0x75) (x1 : isHexDigit h1 = true) (x2 : isHexDigit h2 = true)
    (x3 : isHexDigit h3 = true) (x4 : isHexDigit h4 = true) :
    ∃ rr, getu4 (b0 :: b1 :: h1 :: h2 :: h3 :: h4 :: rest) = some rr := by
  rw [← hexValue_isSome, Option.isSome_iff_exists] at x1 x2 x3 x4
  obtain ⟨v1, e1⟩ := x1
  obtain ⟨v2, e2⟩ := x2
  obtain ⟨v3, e3⟩ := x3
  obtain ⟨v4, e4⟩ := x4
  refine ⟨((v1 * 16 + v2) * 16 + v3) * 16 + v4, ?_⟩
  simp [getu4, hb0, hb1, e1, e2, e3, e4]

theorem getu4_inv {s : Bytes} {rr : Nat} (h : getu4 s = some rr) :
    ∃ b0 b1 h1 h2 h3 h4 rest, s = b0 :: b1 :: h1 :: h2 :: h3 :: h4 :: rest ∧
      b0.val = 0x5C ∧ b1.val = 0x75 ∧ isHexDigit h1 = true ∧ isHexDigit h2 = true ∧
      isHexDigit h3 = true ∧ isHexDigit h4 = true := by
  rcases s with _ | ⟨b0, _ | ⟨b1, _ | ⟨h1, _ | ⟨h2, _ | ⟨h3, _ | ⟨h4, rest⟩⟩⟩⟩⟩⟩
  · simp [getu4] at h
  · simp [getu4] at h
  · simp [getu4] at h
  · simp [getu4] at h
  · simp [getu4] at h
  · simp [getu4] at h
  · simp only [getu4] at h
    split at h
    · cases h
    · rename_i hb
      have hb0 : b0.val = 0x5C := by omega
      have hb1 : b1.val = 0x75 := by omega
      refine ⟨b0, b1, h1, h2, h3, h4, rest, rfl, hb0, hb1, ?_⟩
      simp only [← hexValue_isSome]
      cases e1 : hexValue h1 <;> cases e2 : hexValue h2 <;> cases e3 : hexValue h3 <;>
        cases e4 : hexValue h4 <;> simp_all

theorem unquoteLoop_nil (fuel : Nat) : unquoteLoop fuel [] = some [] := by
  cases fuel with
  | zero => simp [unquoteLoop]
  | succ n => simp [unquoteLoop]

theorem strRun_escape {e : Byte} {rest1 : Bytes} (h : strRun 1 (e :: rest1) = true) :
    ((e.val = 0x62 ∨ e.val = 0x66 ∨ e.val = 0x6E ∨ e.val = 0x72 ∨ e.val = 0x74 ∨
        e.val = 0x5C ∨ e.val = 0x2F ∨ e.val = 0x22) ∧ strRun 0 rest1 = true) ∨
      (e.val = 0x75 ∧ strRun 5 rest1 = true) := by
  simp only [strRun] at h
  split at h
  · rename_i he
    exact Or.inl ⟨he, h⟩
  · split at h
    · rename_i hu
      exact Or.inr ⟨hu, h⟩
    · cases h

theorem strRun_u4 (b0 b1 x1 x2 x3 x4 : Byte) (rest : Bytes) (hb0 : b0.val = 0x5C)
    (hb1 : b1.val = 0x75) (h : strRun 0 (b0 :: b1 :: x1 :: x2 :: x3 :: x4 :: rest) = true) :
    strRun 0 rest = true := by
  have h1 : strRun 0 (b0 :: b1 :: x1 :: x2 :: x3 :: x4 :: rest) =
      strRun 5 (x1 :: x2 :: x3 :: x4 :: rest) := by
    simp [strRun, hb0, hb1]
  rw [h1, strRun_five] at h
  simp only [Bool.and_eq_true] at h
  exact h.2

/-- The second loop of `unquoteBytes` succeeds on every accepted string body. -/
theorem unquoteLoop_isSome (fuel : Nat) :
    ∀ l : Bytes, l.length ≤ fuel → strRun 0 l = true → ∃ t, unquoteLoop fuel l = some t := by
  induction fuel with
  | zero =>
    intro l hl _
    cases l with
    | nil => exact ⟨[], unquoteLoop_nil 0⟩
    | cons c rest => simp at hl
  | succ fuel ih =>
    intro l hl hrun
    rcases l with _ | ⟨c, _ | ⟨e, rest1⟩⟩
    · exact ⟨[], unquoteLoop_nil _⟩
    · rw [unquoteLoop.eq_3]
      by_cases h1 : c.val = 0x5C
      · simp [strRun, h1] at hrun
      rw [if_neg h1]
      by_cases h2 : c.val = 0x22 ∨ c.val < 0x20
      · simp [strRun, h2] at hrun
      rw [if_neg h2]
      by_cases h3 : c.val < 0x80
      · rw [if_pos h3, unquoteLoop_nil]
        exact ⟨_, rfl⟩
      · rw [if_neg h3]
        simp only [List.drop_nil, unquoteLoop_nil]
        exact ⟨_, rfl⟩
    · have hlen : rest1.length + 1 ≤ fuel := by
        simp only [List.length_cons] at hl
        omega
      rw [unquoteLoop.eq_4]
      by_cases h1 : c.val = 0x5C
      · rw [if_pos h1]
        have hrun1 : strRun 1 (e :: rest1) = true := by
          simpa [strRun, h1] using hrun
        rcases strRun_escape hrun1 with ⟨he, hr⟩ | ⟨hu, hr⟩
        · obtain ⟨t, ht⟩ := ih rest1 (by omega) hr
          simp only [ht, Option.map_some']
          rcases he with he | he | he | he | he | he | he | he <;> simp [he]
        · obtain ⟨x1, x2, x3, x4, rest2, rfl, hx1, hx2, hx3, hx4, hr2⟩ := strRun_five_inv hr
          obtain ⟨rr, hrr⟩ := getu4_isSome c e x1 x2 x3 x4 rest2 h1 hu hx1 hx2 hx3 hx4
          have hlen2 : rest2.length ≤ fuel := by
            simp only [List.length_cons] at hlen
            omega
          obtain ⟨t2, ht2⟩ := ih rest2 hlen2 hr2
          have n1 : ¬ ((117 : Nat) = 34 ∨ (117 : Nat) = 92 ∨ (117 : Nat) = 47 ∨
              (117 : Nat) = 39) := by decide
          have n2 : ¬ (117 : Nat) = 98 := by decide
          have n3 : ¬ (117 : Nat) = 102 := by decide
          have n4 : ¬ (117 : Nat) = 110 := by decide
          have n5 : ¬ (117 : Nat) = 114 := by decide
          have n6 : ¬ (117 : Nat) = 116 := by decide
          simp only [hu, hrr, n1, n2, n3, n4, n5, n6, if_false, if_true,
            List.drop_succ_cons, List.drop_zero]
          split
          · cases hg : getu4 rest2 with
            | none =>
              simp only [ht2, Option.map_some']
              exact ⟨_, rfl⟩
            | some rr1 =>
              simp only
              split
              · obtain ⟨b0, b1, y1, y2, y3, y4, rest3, rfl, hb0, hb1, _⟩ := getu4_inv hg
                have hr3 := strRun_u4 b0 b1 y1 y2 y3 y4 rest3 hb0 hb1 hr2
                have hlen3 : rest3.length ≤ fuel := by
                  simp only [List.length_cons] at hlen2
                  omega
                obtain ⟨t3, ht3⟩ := ih rest3 hlen3 hr3
                simp only [List.drop_succ_cons, List.drop_zero, ht3, Option.map_some']
                exact ⟨_, rfl⟩
              · simp only [ht2, Option.map_some']
                exact ⟨_, rfl⟩
          · simp only [ht2, Option.map_some']
            exact ⟨_, rfl⟩
      rw [if_neg h1]
      by_cases h2 : c.val = 0x22 ∨ c.val < 0x20
      · simp [strRun, h2] at hrun
      rw [if_neg h2]
      have hplain : ¬ (c.val = 0x5C ∨ c.val = 0x22 ∨ c.val < 0x20) := by omega
      rw [strRun_plain c _ hplain] at hrun
      by_cases h3 : c.val < 0x80
      · rw [if_pos h3]
        obtain ⟨t, ht⟩ := ih (e :: rest1) (by simpa using hlen) hrun
        simp only [ht, Option.map_some']
        exact ⟨_, rfl⟩
      · rw [if_neg h3]
        have hd := strRun_drop_decodeRune c (e :: rest1) hrun
        rcases hdr : decodeRune (c :: e :: rest1) with ⟨rr, size⟩
        rw [hdr] at hd
        simp only at hd ⊢
        have hdl : (List.drop (size - 1) (e :: rest1)).length ≤ fuel := by
          rw [List.length_drop]
          simp only [List.length_cons]
          omega
        obtain ⟨t, ht⟩ := ih _ hdl hd
        simp only [ht, Option.map_some']
        exact ⟨_, rfl⟩


/-- The function `unquoteBytes` succeeds on a quoted accepted string body. -/
theorem unquoteBytes_isSome (inner : Bytes) (h : strRun 0 inner = true) :
    ∃ s, unquoteBytes ((0x22 : Byte) :: (inner ++ [(0x22 : Byte)])) = some s := by
  have hlen : ¬ ((0x22 : Byte) :: (inner ++ [(0x22 : Byte)])).length < 2 := by
    simp
  have hhead : ¬ ((0x22 : Byte) :: (inner ++ [(0x22 : Byte)])).head? ≠ some 0x22 := by
    simp
  have hlast : ¬ ((0x22 : Byte) :: (inner ++ [(0x22 : Byte)])).getLast? ≠ some 0x22 := by
    rw [← List.cons_append, List.getLast?_append]
    simp
  have hinner : List.take (((0x22 : Byte) :: (inner ++ [(0x22 : Byte)])).length - 2)
      (List.drop 1 ((0x22 : Byte) :: (inner ++ [(0x22 : Byte)]))) = inner := by
    simp
  rw [unquoteBytes.eq_1]
  have hcond : ¬ (((0x22 : Byte) :: (inner ++ [(0x22 : Byte)])).length < 2 ∨
      ((0x22 : Byte) :: (inner ++ [(0x22 : Byte)])).head? ≠ some 0x22 ∨
      ((0x22 : Byte) :: (inner ++ [(0x22 : Byte)])).getLast? ≠ some 0x22) := by
    rintro (h1 | h1 | h1)
    · exact hlen h1
    · exact hhead h1
    · exact hlast h1
  rw [if_neg hcond]
  simp only [hinner]
  split
  · exact ⟨_, rfl⟩
  · have hd := strRun_drop_plainLen inner.length inner h
    have hl : (List.drop (plainLen inner.length inner) inner).length ≤ inner.length := by
      rw [List.length_drop]
      omega
    obtain ⟨t, ht⟩ := unquoteLoop_isSome inner.length _ hl hd
    rw [ht]
    exact ⟨_, rfl⟩

theorem stateBeginValue_step (st st1 : ScanState) (e : Bool) (stack : List ParseState)
    (er : Bool) (c : Byte) (hc : isSpace c = false) :
    stateBeginValue ⟨st, e, stack, er⟩ c = stateBeginValue ⟨st1, e, stack, er⟩ c := by
  unfold stateBeginValue
  simp only [hc, Bool.false_eq_true, if_false]
  rfl

theorem beginValue_array {stack : List ParseState} {c : Byte} {rest : Bytes}
    (hv : checkValidFrom (scannerAt .stateBeginValue stack) (c :: rest) = true)
    (hs : isSpace c = false) (hc : c.val = 0x5B) :
    checkValidFrom (scannerAt .stateBeginValueOrEmpty (.parseArrayValue :: stack)) rest = true := by
  rw [checkValidFrom_cons] at hv
  by_cases hd : stack.length + 1 ≤ maxNestingDepth
  · have hstep : (scannerAt .stateBeginValue stack).doStep c =
        (scannerAt .stateBeginValueOrEmpty (.parseArrayValue :: stack), .scanBeginArray) := by
      simp [Scanner.doStep, stateBeginValue, Scanner.pushParseState, scannerAt, hs, hc, hd]
    rw [hstep] at hv
    exact hv.2
  · have := hv.1
    simp [Scanner.doStep, stateBeginValue, Scanner.pushParseState, scannerAt, hs, hc, hd,
      Scanner.error] at this

theorem beginValue_object {stack : List ParseState} {c : Byte} {rest : Bytes}
    (hv : checkValidFrom (scannerAt .stateBeginValue stack) (c :: rest) = true)
    (hs : isSpace c = false) (hc : c.val = 0x7B) :
    checkValidFrom (scannerAt .stateBeginStringOrEmpty (.parseObjectKey :: stack)) rest = true := by
  rw [checkValidFrom_cons] at hv
  by_cases hd : stack.length + 1 ≤ maxNestingDepth
  · have hstep : (scannerAt .stateBeginValue stack).doStep c =
        (scannerAt .stateBeginStringOrEmpty (.parseObjectKey :: stack), .scanBeginObject) := by
      simp [Scanner.doStep, stateBeginValue, Scanner.pushParseState, scannerAt, hs, hc, hd]
    rw [hstep] at hv
    exact hv.2
  · have := hv.1
    simp [Scanner.doStep, stateBeginValue, Scanner.pushParseState, scannerAt, hs, hc, hd,
      Scanner.error] at this

theorem beginValue_string {stack : List ParseState} {c : Byte} {rest : Bytes}
    (hv : checkValidFrom (scannerAt .stateBeginValue stack) (c :: rest) = true)
    (hs : isSpace c = false) (hc : c.val = 0x22) :
    checkValidFrom (scannerAt (strState 0) stack) rest = true := by
  rw [checkValidFrom_cons] at hv
  have hstep : (scannerAt .stateBeginValue stack).doStep c =
      (scannerAt (strState 0) stack, .scanBeginLiteral) := by
    simp [Scanner.doStep, stateBeginValue, scannerAt, strState, hs, hc]
  rw [hstep] at hv
  exact hv.2

theorem isDigit_cases (c : Byte) (h : isDigit c = true) :
    c.val = 0x30 ∨ (0x31 ≤ c.val ∧ c.val ≤ 0x39) := by
  simp only [isDigit, decide_eq_true_eq] at h
  omega

theorem beginValue_number {stack : List ParseState} {c : Byte} {rest : Bytes}
    (hv : checkValidFrom (scannerAt .stateBeginValue stack) (c :: rest) = true)
    (hs : isSpace c = false) (hc : isDigit c = true ∨ c.val = 0x2D) :
    ∃ st, numState st ∧ checkValidFrom (scannerAt st stack) rest = true := by
  rw [checkValidFrom_cons] at hv
  rcases hc with hc | hc
  · rcases isDigit_cases c hc with h0 | h19
    · have hstep : (scannerAt .stateBeginValue stack).doStep c =
          (scannerAt .state0 stack, .scanBeginLiteral) := by
        simp [Scanner.doStep, stateBeginValue, scannerAt, hs, h0]
      rw [hstep] at hv
      exact ⟨.state0, by simp [numState], hv.2⟩
    · have hstep : (scannerAt .stateBeginValue stack).doStep c =
          (scannerAt .state1 stack, .scanBeginLiteral) := by
        have n1 : c.val ≠ 0x7B := by omega
        have n2 : c.val ≠ 0x5B := by omega
        have n3 : c.val ≠ 0x22 := by omega
        have n4 : c.val ≠ 0x2D := by omega
        have n5 : c.val ≠ 0x30 := by omega
        have n6 : c.val ≠ 0x74 := by omega
        have n7 : c.val ≠ 0x66 := by omega
        have n8 : c.val ≠ 0x6E := by omega
        simp [Scanner.doStep, stateBeginValue, scannerAt, hs, n1, n2, n3, n4, n5, n6, n7, n8,
          h19]
      rw [hstep] at hv
      exact ⟨.state1, by simp [numState], hv.2⟩
  · have hstep : (scannerAt .stateBeginValue stack).doStep c =
        (scannerAt .stateNeg stack, .scanBeginLiteral) := by
      simp [Scanner.doStep, stateBeginValue, scannerAt, hs, hc]
    rw [hstep] at hv
    exact ⟨.stateNeg, by simp [numState], hv.2⟩

theorem beginValue_keyword {stack : List ParseState} {c : Byte} {rest : Bytes}
    (hv : checkValidFrom (scannerAt .stateBeginValue stack) (c :: rest) = true)
    (hs : isSpace c = false) :
    (c.val = 0x74 → checkValidFrom (scannerAt .stateT stack) rest = true) ∧
    (c.val = 0x66 → checkValidFrom (scannerAt .stateF stack) rest = true) ∧
    (c.val = 0x6E → checkValidFrom (scannerAt .stateN stack) rest = true) := by
  rw [checkValidFrom_cons] at hv
  refine ⟨?_, ?_, ?_⟩
  · intro hc
    have hstep : (scannerAt .stateBeginValue stack).doStep c =
        (scannerAt .stateT stack, .scanBeginLiteral) := by
      simp [Scanner.doStep, stateBeginValue, scannerAt, hs, hc]
    rw [hstep] at hv
    exact hv.2
  · intro hc
    have hstep : (scannerAt .stateBeginValue stack).doStep c =
        (scannerAt .stateF stack, .scanBeginLiteral) := by
      simp [Scanner.doStep, stateBeginValue, scannerAt, hs, hc]
    rw [hstep] at hv
    exact hv.2
  · intro hc
    have hstep : (scannerAt .stateBeginValue stack).doStep c =
        (scannerAt .stateN stack, .scanBeginLiteral) := by
      simp [Scanner.doStep, stateBeginValue, scannerAt, hs, hc]
    rw [hstep] at hv
    exact hv.2

theorem beginValue_other {stack : List ParseState} {c : Byte} {rest : Bytes}
    (hv : checkValidFrom (scannerAt .stateBeginValue stack) (c :: rest) = true)
    (hs : isSpace c = false) (h1 : c.val ≠ 0x5B) (h2 : c.val ≠ 0x7B) (h3 : c.val ≠ 0x22)
    (h4 : ¬ (isDigit c = true ∨ c.val = 0x2D)) (h5 : c.val ≠ 0x74) (h6 : c.val ≠ 0x66)
    (h7 : c.val ≠ 0x6E) : False := by
  rw [checkValidFrom_cons] at hv
  have hd : ¬ (0x31 ≤ c.val ∧ c.val ≤ 0x39) := by
    intro h
    apply h4
    left
    simp only [isDigit, decide_eq_true_eq]
    omega
  have h0 : c.val ≠ 0x30 := by
    intro h
    apply h4
    left
    simp [isDigit, h]
  have hm : c.val ≠ 0x2D := fun h => h4 (Or.inr h)
  have := hv.1
  simp [Scanner.doStep, stateBeginValue, scannerAt, hs, h1, h2, h3, hm, h0, h5, h6, h7, hd,
    Scanner.error] at this

theorem endValue_array {stack : List ParseState} {e : Byte} {rest : Bytes}
    (hv : checkValidFrom (scannerAt .stateEndValue (.parseArrayValue :: stack)) (e :: rest) = true)
    (hs : isSpace e = false) :
    (e.val = 0x5D ∧ checkValidFrom (scannerAt .stateEndValue stack) rest = true) ∨
    (e.val ≠ 0x5D ∧ e.val = 0x2C ∧
      checkValidFrom (scannerAt .stateBeginValue (.parseArrayValue :: stack)) rest = true) := by
  rw [checkValidFrom_cons] at hv
  by_cases h1 : e.val = 0x2C
  · have hstep : (scannerAt .stateEndValue (.parseArrayValue :: stack)).doStep e =
        (scannerAt .stateBeginValue (.parseArrayValue :: stack), .scanArrayValue) := by
      simp [Scanner.doStep, stateEndValue, scannerAt, hs, h1]
    rw [hstep] at hv
    exact Or.inr ⟨by omega, h1, hv.2⟩
  · by_cases h2 : e.val = 0x5D
    · have hstep : (scannerAt .stateEndValue (.parseArrayValue :: stack)).doStep e =
          ((scannerAt .stateEndValue (.parseArrayValue :: stack)).popParseState,
            .scanEndArray) := by
        simp [Scanner.doStep, stateEndValue, scannerAt, hs, h1, h2]
      rw [hstep] at hv
      have := hv.2
      rw [checkValidFrom_pop] at this
      exact Or.inl ⟨h2, this⟩
    · have := hv.1
      simp [Scanner.doStep, stateEndValue, scannerAt, hs, h1, h2, Scanner.error] at this

theorem endValue_objectKey {stack : List ParseState} {e : Byte} {rest : Bytes}
    (hv : checkValidFrom (scannerAt .stateEndValue (.parseObjectKey :: stack)) (e :: rest) = true)
    (hs : isSpace e = false) :
    e.val = 0x3A ∧
      checkValidFrom (scannerAt .stateBeginValue (.parseObjectValue :: stack)) rest = true := by
  rw [checkValidFrom_cons] at hv
  by_cases h1 : e.val = 0x3A
  · have hstep : (scannerAt .stateEndValue (.parseObjectKey :: stack)).doStep e =
        (scannerAt .stateBeginValue (.parseObjectValue :: stack), .scanObjectKey) := by
      simp [Scanner.doStep, stateEndValue, scannerAt, hs, h1]
    rw [hstep] at hv
    exact ⟨h1, hv.2⟩
  · have := hv.1
    simp [Scanner.doStep, stateEndValue, scannerAt, hs, h1, Scanner.error] at this

theorem endValue_objectValue {stack : List ParseState} {e : Byte} {rest : Bytes}
    (hv : checkValidFrom (scannerAt .stateEndValue (.parseObjectValue :: stack)) (e :: rest) = true)
    (hs : isSpace e = false) :
    (e.val = 0x7D ∧ checkValidFrom (scannerAt .stateEndValue stack) rest = true) ∨
    (e.val ≠ 0x7D ∧ e.val = 0x2C ∧
      checkValidFrom (scannerAt .stateBeginString (.parseObjectKey :: stack)) rest = true) := by
  rw [checkValidFrom_cons] at hv
  by_cases h1 : e.val = 0x2C
  · have hstep : (scannerAt .stateEndValue (.parseObjectValue :: stack)).doStep e =
        (scannerAt .stateBeginString (.parseObjectKey :: stack), .scanObjectValue) := by
      simp [Scanner.doStep, stateEndValue, scannerAt, hs, h1]
    rw [hstep] at hv
    exact Or.inr ⟨by omega, h1, hv.2⟩
  · by_cases h2 : e.val = 0x7D
    · have hstep : (scannerAt .stateEndValue (.parseObjectValue :: stack)).doStep e =
          ((scannerAt .stateEndValue (.parseObjectValue :: stack)).popParseState,
            .scanEndObject) := by
        simp [Scanner.doStep, stateEndValue, scannerAt, hs, h1, h2]
      rw [hstep] at hv
      have := hv.2
      rw [checkValidFrom_pop] at this
      exact Or.inl ⟨h2, this⟩
    · have := hv.1
      simp [Scanner.doStep, stateEndValue, scannerAt, hs, h1, h2, Scanner.error] at this

theorem array_first {stack : List ParseState} {c : Byte} {rest : Bytes}
    (hv : checkValidFrom (scannerAt .stateBeginValueOrEmpty (.parseArrayValue :: stack))
      (c :: rest) = true)
    (hs : isSpace c = false) :
    (c.val = 0x5D ∧ checkValidFrom (scannerAt .stateEndValue stack) rest = true) ∨
    (c.val ≠ 0x5D ∧
      checkValidFrom (scannerAt .stateBeginValue (.parseArrayValue :: stack)) (c :: rest) = true) := by
  by_cases h1 : c.val = 0x5D
  · rw [checkValidFrom_cons] at hv
    have hstep : (scannerAt .stateBeginValueOrEmpty (.parseArrayValue :: stack)).doStep c =
        ((scannerAt .stateBeginValueOrEmpty (.parseArrayValue :: stack)).popParseState,
          .scanEndArray) := by
      simp [Scanner.doStep, stateBeginValueOrEmpty, stateEndValue, scannerAt, hs, h1]
    rw [hstep] at hv
    have := hv.2
    rw [checkValidFrom_pop] at this
    exact Or.inl ⟨h1, this⟩
  · refine Or.inr ⟨h1, ?_⟩
    rw [← hv]
    apply checkValidFrom_congr
    have e1 : (scannerAt .stateBeginValue (.parseArrayValue :: stack)).doStep c =
        stateBeginValue (scannerAt .stateBeginValue (.parseArrayValue :: stack)) c := by
      simp [Scanner.doStep, scannerAt]
    have e2 : (scannerAt .stateBeginValueOrEmpty (.parseArrayValue :: stack)).doStep c =
        stateBeginValue (scannerAt .stateBeginValueOrEmpty (.parseArrayValue :: stack)) c := by
      simp [Scanner.doStep, stateBeginValueOrEmpty, scannerAt, hs, h1]
    rw [e1, e2]
    exact stateBeginValue_step _ _ _ _ _ _ hs

theorem object_key {stack : List ParseState} {c : Byte} {rest : Bytes} {first : Bool}
    (hv : checkValidFrom
      (scannerAt (if first then .stateBeginStringOrEmpty else .stateBeginString)
        (.parseObjectKey :: stack)) (c :: rest) = true)
    (hs : isSpace c = false) :
    (first = true ∧ c.val = 0x7D ∧
      checkValidFrom (scannerAt .stateEndValue stack) rest = true) ∨
    (¬ (first = true ∧ c.val = 0x7D) ∧ c.val = 0x22 ∧
      checkValidFrom (scannerAt (strState 0) (.parseObjectKey :: stack)) rest = true) := by
  rw [checkValidFrom_cons] at hv
  by_cases h2 : c.val = 0x22
  · have hstep : (scannerAt (if first then .stateBeginStringOrEmpty else .stateBeginString)
        (.parseObjectKey :: stack)).doStep c =
        (scannerAt (strState 0) (.parseObjectKey :: stack), .scanBeginLiteral) := by
      cases first <;>
        simp [Scanner.doStep, stateBeginStringOrEmpty, stateBeginString, scannerAt, strState,
          hs, h2]
    rw [hstep] at hv
    exact Or.inr ⟨by omega, h2, hv.2⟩
  · cases first with
    | false =>
      have := hv.1
      simp [Scanner.doStep, stateBeginString, scannerAt, hs, h2, Scanner.error] at this
    | true =>
      by_cases h1 : c.val = 0x7D
      · have hstep : (scannerAt .stateBeginStringOrEmpty (.parseObjectKey :: stack)).doStep c =
            ((scannerAt .stateBeginStringOrEmpty (.parseObjectValue :: stack)).popParseState,
              .scanEndObject) := by
          simp [Scanner.doStep, stateBeginStringOrEmpty, stateEndValue, scannerAt, hs, h1]
        simp only [if_true] at hv
        rw [hstep] at hv
        have := hv.2
        rw [checkValidFrom_pop] at this
        exact Or.inl ⟨rfl, h1, this⟩
      · have := hv.1
        simp [Scanner.doStep, stateBeginStringOrEmpty, stateBeginString, scannerAt, hs, h1, h2,
          Scanner.error] at this

theorem keyword_true {stack : List ParseState} {rest : Bytes}
    (hv : checkValidFrom (scannerAt .stateT stack) rest = true) :
    checkValidFrom (scannerAt .stateEndValue stack) (rest.drop 3) = true := by
  obtain ⟨c1, r1, rfl, _, hv1⟩ := @expect_valid .stateT .stateTr 0x72 stack
    (fun c => rfl) (by decide) _ hv
  obtain ⟨c2, r2, rfl, _, hv2⟩ := @expect_valid .stateTr .stateTru 0x75 stack
    (fun c => rfl) (by decide) _ hv1
  obtain ⟨c3, r3, rfl, _, hv3⟩ := @expect_valid .stateTru .stateEndValue 0x65 stack
    (fun c => rfl) (by decide) _ hv2
  exact hv3

theorem keyword_false {stack : List ParseState} {rest : Bytes}
    (hv : checkValidFrom (scannerAt .stateF stack) rest = true) :
    checkValidFrom (scannerAt .stateEndValue stack) (rest.drop 4) = true := by
  obtain ⟨c1, r1, rfl, _, hv1⟩ := @expect_valid .stateF .stateFa 0x61 stack
    (fun c => rfl) (by decide) _ hv
  obtain ⟨c2, r2, rfl, _, hv2⟩ := @expect_valid .stateFa .stateFal 0x6C stack
    (fun c => rfl) (by decide) _ hv1
  obtain ⟨c3, r3, rfl, _, hv3⟩ := @expect_valid .stateFal .stateFals 0x73 stack
    (fun c => rfl) (by decide) _ hv2
  obtain ⟨c4, r4, rfl, _, hv4⟩ := @expect_valid .stateFals .stateEndValue 0x65 stack
    (fun c => rfl) (by decide) _ hv3
  exact hv4

theorem keyword_null {stack : List ParseState} {rest : Bytes}
    (hv : checkValidFrom (scannerAt .stateN stack) rest = true) :
    checkValidFrom (scannerAt .stateEndValue stack) (rest.drop 3) = true := by
  obtain ⟨c1, r1, rfl, _, hv1⟩ := @expect_valid .stateN .stateNu 0x75 stack
    (fun c => rfl) (by decide) _ hv
  obtain ⟨c2, r2, rfl, _, hv2⟩ := @expect_valid .stateNu .stateNul 0x6C stack
    (fun c => rfl) (by decide) _ hv1
  obtain ⟨c3, r3, rfl, _, hv3⟩ := @expect_valid .stateNul .stateEndValue 0x6C stack
    (fun c => rfl) (by decide) _ hv2
  exact hv3

/-- A literal the scanner accepts at the start of a value: `rescanLiteral` cuts it where
the scanner is at the end of the value, and `literalStore` does not panic on it. -/
theorem literal_valid {stack : List ParseState} {c : Byte} {rest : Bytes}
    (hv : checkValidFrom (scannerAt .stateBeginValue stack) (c :: rest) = true)
    (hs : isSpace c = false) (h1 : c.val ≠ 0x5B) (h2 : c.val ≠ 0x7B) :
    checkValidFrom (scannerAt .stateEndValue stack) (rescanLiteral (c :: rest)).2 = true ∧
    ∀ (v : Target) (d : DecodeState),
      ∃ d1, literalStore (rescanLiteral (c :: rest)).1 v d = some d1 := by
  by_cases h3 : c.val = 0x22
  · have hstr := beginValue_string hv hs h3
    obtain ⟨hend, inner, hlit, hrun⟩ := string_valid stack rest.length rest 0 (Nat.le_refl _)
      (Or.inl rfl) hstr
    have hrl : rescanLiteral (c :: rest) = (c :: (scanString rest).1, (scanString rest).2) := by
      simp [rescanLiteral, h3]
    rw [hrl]
    refine ⟨hend, ?_⟩
    intro v d
    have hc : c = (0x22 : Byte) := Fin.ext h3
    obtain ⟨t, ht⟩ := unquoteBytes_isSome inner hrun
    simp only [hlit, hc]
    rw [literalStore]
    have n1 : ¬ ((0x22 : Byte).val = 0x6E) := by decide
    have n2 : ¬ ((0x22 : Byte).val = 0x74 ∨ (0x22 : Byte).val = 0x66) := by decide
    have n3 : (0x22 : Byte).val = 0x22 := rfl
    rw [if_neg n1, if_neg n2, if_pos n3, ht]
    cases v <;> exact ⟨_, rfl⟩
  · by_cases h4 : isDigit c = true ∨ c.val = 0x2D
    · obtain ⟨st, hst, hnum⟩ := beginValue_number hv hs h4
      have hrl : rescanLiteral (c :: rest) =
          (c :: rest.takeWhile isNumberByte, rest.dropWhile isNumberByte) := by
        simp only [rescanLiteral, h3, h4, if_false, if_true]
      rw [hrl]
      refine ⟨number_valid stack rest st hst hnum, ?_⟩
      intro v d
      have n1 : ¬ c.val = 0x6E := by
        rcases h4 with h | h
        · have := isDigit_cases c h
          omega
        · omega
      have n2 : ¬ (c.val = 0x74 ∨ c.val = 0x66) := by
        rcases h4 with h | h
        · have := isDigit_cases c h
          omega
        · omega
      have n4 : ¬ (c.val ≠ 0x2D ∧ ¬ isDigit c = true) := by
        rintro ⟨a, b⟩
        rcases h4 with h | h
        · exact b h
        · exact a h
      simp only
      rw [literalStore, if_neg n1, if_neg n2, if_neg h3, if_neg n4]
      exact ⟨_, rfl⟩
    · obtain ⟨ht, hf, hn⟩ := beginValue_keyword hv hs
      by_cases h5 : c.val = 0x74
      · have hrl : rescanLiteral (c :: rest) = ((c :: rest).take 4, (c :: rest).drop 4) := by
          simp only [rescanLiteral]
          rw [if_neg h3, if_neg h4, if_pos h5]
        rw [hrl]
        refine ⟨keyword_true (ht h5), ?_⟩
        intro v d
        simp only [List.take_succ_cons]
        rw [literalStore]
        simp [h5]
      · by_cases h6 : c.val = 0x66
        · have hrl : rescanLiteral (c :: rest) = ((c :: rest).take 5, (c :: rest).drop 5) := by
            simp only [rescanLiteral]
            rw [if_neg h3, if_neg h4, if_neg h5, if_pos h6]
          rw [hrl]
          refine ⟨keyword_false (hf h6), ?_⟩
          intro v d
          simp only [List.take_succ_cons]
          rw [literalStore]
          simp [h6]
        · by_cases h7 : c.val = 0x6E
          · have hrl : rescanLiteral (c :: rest) = ((c :: rest).take 4, (c :: rest).drop 4) := by
              simp only [rescanLiteral]
              rw [if_neg h3, if_neg h4, if_neg h5, if_neg h6, if_pos h7]
            rw [hrl]
            refine ⟨keyword_null (hn h7), ?_⟩
            intro v d
            simp only [List.take_succ_cons]
            rw [literalStore]
            simp [h7]
          · exact absurd (beginValue_other hv hs h1 h2 h3 h4 h5 h6 h7) id


theorem skipsSpace_endValue (ps : ParseState) (stack : List ParseState) :
    skipsSpace .stateEndValue (ps :: stack) :=
  Or.inr (Or.inr (Or.inr (Or.inr ⟨rfl, List.cons_ne_nil _ _⟩)))

/-- On input the scanner accepts, the decoder returns a result and leaves the input where
the scanner is at the end of the value, of the array or of the object. -/
theorem decode_succeeds (fuel : Nat) :
    (∀ (v : Target) (d : DecodeState) (stack : List ParseState) (c : Byte) (rest : Bytes),
      isSpace c = false → 2 * (c :: rest).length + 1 ≤ fuel →
      checkValidFrom (scannerAt .stateBeginValue stack) (c :: rest) = true →
      ∃ d1 after, value fuel v d (c :: rest) = some (d1, after) ∧
        checkValidFrom (scannerAt .stateEndValue stack) after = true) ∧
    (∀ (first : Bool) (d : DecodeState) (stack : List ParseState) (c : Byte) (rest : Bytes),
      isSpace c = false → 2 * (c :: rest).length + 2 ≤ fuel →
      checkValidFrom (scannerAt (if first then .stateBeginValueOrEmpty else .stateBeginValue)
        (.parseArrayValue :: stack)) (c :: rest) = true →
      ∃ d1 after, arrayElements fuel first d (c :: rest) = some (d1, after) ∧
        checkValidFrom (scannerAt .stateEndValue stack) after = true) ∧
    (∀ (first : Bool) (v : Target) (d : DecodeState) (stack : List ParseState) (c : Byte)
      (rest : Bytes),
      isSpace c = false → 2 * (c :: rest).length + 2 ≤ fuel →
      checkValidFrom (scannerAt (if first then .stateBeginStringOrEmpty else .stateBeginString)
        (.parseObjectKey :: stack)) (c :: rest) = true →
      ∃ d1 after, objectMembers fuel first v d (c :: rest) = some (d1, after) ∧
        checkValidFrom (scannerAt .stateEndValue stack) after = true) := by
  induction fuel with
  | zero =>
    refine ⟨?_, ?_, ?_⟩
    · intro v d stack c rest _ hf
      omega
    · intro first d stack c rest _ hf
      omega
    · intro first v d stack c rest _ hf
      omega
  | succ fuel ih =>
    obtain ⟨ihv, iha, iho⟩ := ih
    refine ⟨?_, ?_, ?_⟩
    · -- a value
      intro v d stack c rest hs hf hv
      simp only [List.length_cons] at hf
      have hskr := skipSpace_length_le rest
      rw [value.eq_3]
      by_cases h1 : c.val = 0x5B
      · rw [if_pos h1]
        obtain ⟨c1, rest1, hsk, hs1, hv1⟩ :=
          valid_skipSpace (Or.inr (Or.inl rfl)) (beginValue_array hv hs h1)
        rw [hsk] at hskr ⊢
        exact iha true _ stack c1 rest1 hs1 (by omega) hv1
      rw [if_neg h1]
      by_cases h2 : c.val = 0x7B
      · rw [if_pos h2]
        obtain ⟨c1, rest1, hsk, hs1, hv1⟩ :=
          valid_skipSpace (Or.inr (Or.inr (Or.inr (Or.inl rfl)))) (beginValue_object hv hs h2)
        rw [hsk] at hskr ⊢
        split
        · exact iho true _ _ stack c1 rest1 hs1 (by omega) hv1
        · exact iho true _ _ stack c1 rest1 hs1 (by omega) hv1
      rw [if_neg h2]
      obtain ⟨hend, hstore⟩ := literal_valid hv hs h1 h2
      rcases hrl : rescanLiteral (c :: rest) with ⟨item, after⟩
      rw [hrl] at hend hstore
      simp only at hend hstore ⊢
      split
      · exact ⟨d, after, rfl, hend⟩
      · obtain ⟨d1, hd1⟩ := hstore v d
        rw [hd1]
        exact ⟨d1, after, rfl, hend⟩
    · -- the elements of an array
      intro first d stack c rest hs hf hv
      simp only [List.length_cons] at hf
      rw [arrayElements.eq_3]
      have hmain : (first = true ∧ c.val = 0x5D ∧
            checkValidFrom (scannerAt .stateEndValue stack) rest = true) ∨
          (¬ (first = true ∧ c.val = 0x5D) ∧
            checkValidFrom (scannerAt .stateBeginValue (.parseArrayValue :: stack))
              (c :: rest) = true) := by
        cases first with
        | true =>
          rcases array_first hv hs with ⟨h1, hend⟩ | ⟨h1, hv1⟩
          · exact Or.inl ⟨rfl, h1, hend⟩
          · exact Or.inr ⟨fun h => h1 h.2, hv1⟩
        | false => exact Or.inr ⟨fun h => Bool.false_ne_true h.1, hv⟩
      rcases hmain with ⟨hf1, h1, hend⟩ | ⟨hn, hv1⟩
      · rw [if_pos ⟨hf1, h1⟩]
        exact ⟨d, rest, rfl, hend⟩
      rw [if_neg hn]
      obtain ⟨d1, after, hval, hend1⟩ :=
        ihv .invalid d (.parseArrayValue :: stack) c rest hs
          (by simp only [List.length_cons]; omega) hv1
      have hafter := (decode_length_le fuel).1 _ _ _ _ hval
      simp only [List.length_cons] at hafter
      rw [hval]
      simp only
      obtain ⟨e, rest1, hsk, hse, hve⟩ := valid_skipSpace (skipsSpace_endValue _ _) hend1
      have hl1 := skipSpace_cons_length hsk
      rw [hsk]
      simp only
      rcases endValue_array hve hse with ⟨he, hend⟩ | ⟨hne, hcomma, hv2⟩
      · rw [if_pos he]
        exact ⟨d1, rest1, rfl, hend⟩
      · rw [if_neg hne, if_pos hcomma]
        obtain ⟨c2, rest2, hsk2, hs2, hv3⟩ := valid_skipSpace (Or.inl rfl) hv2
        have hl2 := skipSpace_length_le rest1
        rw [hsk2] at hl2 ⊢
        simp only [List.length_cons] at hl2
        exact iha false d1 stack c2 rest2 hs2
          (by simp only [List.length_cons]; omega) hv3
    · -- the members of an object
      intro first v d stack c rest hs hf hv
      simp only [List.length_cons] at hf
      rw [objectMembers.eq_3]
      rcases object_key hv hs with ⟨hf1, h1, hend⟩ | ⟨hn, hq, hstr⟩
      · rw [if_pos ⟨hf1, h1⟩]
        exact ⟨d, rest, rfl, hend⟩
      rw [if_neg hn, if_neg (not_not.mpr hq)]
      obtain ⟨hend1, inner, hlit, hrun⟩ :=
        string_valid (.parseObjectKey :: stack) rest.length rest 0 (Nat.le_refl _) (Or.inl rfl)
          hstr
      have hrl : rescanLiteral (c :: rest) = (c :: (scanString rest).1, (scanString rest).2) := by
        simp [rescanLiteral, hq]
      have hsl := scanString_length_le rest
      rw [hrl]
      simp only
      have hsub : ∃ subv, (if v = Target.invalid then some Target.invalid
          else Option.map v.field (unquoteBytes (c :: (scanString rest).1))) = some subv := by
        by_cases hvi : v = Target.invalid
        · rw [if_pos hvi]
          exact ⟨_, rfl⟩
        · rw [if_neg hvi]
          have hc : c = (0x22 : Byte) := Fin.ext hq
          obtain ⟨t, ht⟩ := unquoteBytes_isSome inner hrun
          rw [hlit, hc, ht]
          exact ⟨_, rfl⟩
      obtain ⟨subv, hsubv⟩ := hsub
      rw [hsubv]
      simp only
      obtain ⟨colon, rest1, hsk, hsc, hvc⟩ := valid_skipSpace (skipsSpace_endValue _ _) hend1
      have hl1 := skipSpace_cons_length hsk
      rw [hsk]
      simp only
      obtain ⟨hcolon, hv2⟩ := endValue_objectKey hvc hsc
      rw [if_neg (not_not.mpr hcolon)]
      obtain ⟨c2, rest2, hsk2, hs2, hv3⟩ := valid_skipSpace (Or.inl rfl) hv2
      have hl2 := skipSpace_length_le rest1
      rw [hsk2] at hl2 ⊢
      simp only [List.length_cons] at hl2
      obtain ⟨d1, after1, hval, hend2⟩ :=
        ihv subv d (.parseObjectValue :: stack) c2 rest2 hs2
          (by simp only [List.length_cons]; omega) hv3
      have hafter := (decode_length_le fuel).1 _ _ _ _ hval
      simp only [List.length_cons] at hafter
      rw [hval]
      simp only
      obtain ⟨e, rest3, hsk3, hse, hve⟩ := valid_skipSpace (skipsSpace_endValue _ _) hend2
      have hl3 := skipSpace_cons_length hsk3
      rw [hsk3]
      simp only
      rcases endValue_objectValue hve hse with ⟨he, hend⟩ | ⟨hne, hcomma, hv4⟩
      · rw [if_pos he]
        exact ⟨d1, rest3, rfl, hend⟩
      · rw [if_neg hne, if_pos hcomma]
        obtain ⟨c4, rest4, hsk4, hs4, hv5⟩ :=
          valid_skipSpace (Or.inr (Or.inr (Or.inl rfl))) hv4
        have hl4 := skipSpace_length_le rest3
        rw [hsk4] at hl4 ⊢
        simp only [List.length_cons] at hl4
        exact iho false v d1 stack c4 rest4 hs4
          (by simp only [List.length_cons]; omega) hv5

/-- The decoder returns a result on every input that `checkValid` accepts: the panics of
Go's decoder are not reached. -/
theorem value_isSome_of_checkValid (data : Bytes) (h : checkValid data = true) (v : Target)
    (d : DecodeState) :
    ∃ d1 after, value (2 * data.length + 2) v d (skipSpace data) = some (d1, after) := by
  have hv : checkValidFrom (scannerAt .stateBeginValue []) data = true := h
  obtain ⟨c, rest, hsk, hs, hv1⟩ := valid_skipSpace (Or.inl rfl) hv
  have hl := skipSpace_length_le data
  rw [hsk] at hl ⊢
  obtain ⟨d1, after, hval, _⟩ :=
    (decode_succeeds (2 * data.length + 2)).1 v d [] c rest hs (by omega) hv1
  exact ⟨d1, after, hval⟩

/-- The function `jsonUnmarshal` reports an error exactly when the input is not valid
JSON or the decoder has saved a type error. -/
theorem jsonUnmarshal_eq_none_iff (data : Bytes) :
    jsonUnmarshal data = none ↔
      checkValid data = false ∨
        ∃ d after, value (2 * data.length + 2) .webhook ⟨⟨[], []⟩, false⟩ (skipSpace data) =
          some (d, after) ∧ d.savedError = true := by
  unfold jsonUnmarshal
  cases hc : checkValid data with
  | false => simp
  | true =>
    obtain ⟨d1, after, hval⟩ := value_isSome_of_checkValid data hc .webhook ⟨⟨[], []⟩, false⟩
    rw [hval]
    cases hs : d1.savedError <;> simp [hs]


/-! ## Known answers of the library models -/

/-- The SHA-256 model on the one-block message `abc` of FIPS 180. -/
theorem sha256_abc :
    hexEncode (sha256 (str "abc")) =
      str "ba7816bf8f01cfea414140de5dae2223b00361a396177a9cb410ff61f20015ad" := by
  decide

/-- The HMAC-SHA256 model on test case 2 of RFC 4231. -/
theorem hmacSHA256_rfc4231 :
    hexEncode (hmacSHA256 (str "Jefe") (str "what do ya want for nothing?")) =
      str "5bdcc146bf60754e6a042426089575c75a003f089d2739839dec58b964ec3843" := by
  decide

/-- The signature expected for the body `{}` under the secret of the source. -/
theorem expectedSignature_empty_object :
    expectedSignature (str "\x7b\x7d") =
      str "sha256=fc22cb07919c008142040316d924716f1082e63dfc4641ad17167bebe85ccf8e" := by
  decide

/-- The decoder model on the example body. -/
theorem jsonUnmarshal_exampleBody :
    jsonUnmarshal exampleBody = some ⟨str "My-Repo", str "https://x/y.git"⟩ := by
  decide

/-- The decoder model leaves absent and `null` fields empty, matches keys without regard to
case, and lets a later duplicate key overwrite an earlier one. -/
theorem jsonUnmarshal_lenient :
    jsonUnmarshal (str "\x7b\x7d") = some ⟨[], []⟩ ∧
    jsonUnmarshal (str "null") = some ⟨[], []⟩ ∧
    jsonUnmarshal (str "\x7b\"repository\":null\x7d") = some ⟨[], []⟩ ∧
    jsonUnmarshal (str "\x7b\"repository\":\x7b\"name\":null,\"clone_url\":\"u\"\x7d\x7d") =
      some ⟨[], str "u"⟩ ∧
    jsonUnmarshal (str "\x7b\"Repository\":\x7b\"NAME\":\"a\",\"Clone_URL\":\"u\"\x7d\x7d") =
      some ⟨str "a", str "u"⟩ ∧
    jsonUnmarshal (str "\x7b\"repository\":\x7b\"name\":\"a\",\"name\":\"b\"\x7d,\"x\":[1,\x7b\x7d]\x7d") =
      some ⟨str "b", []⟩ := by
  decide

/-- The decoder model reports an error for input that is not one JSON value and for a
value of the wrong type where an object or a string is expected. -/
theorem jsonUnmarshal_errors :
    jsonUnmarshal [] = none ∧
    jsonUnmarshal (str "\x7b\"repository\":") = none ∧
    jsonUnmarshal (str "\x7b\x7d\x7b\x7d") = none ∧
    jsonUnmarshal (str "42") = none ∧
    jsonUnmarshal (str "\x7b\"repository\":\"x\"\x7d") = none ∧
    jsonUnmarshal (str "\x7b\"repository\":\x7b\"clone_url\":true\x7d\x7d") = none := by
  decide

/-! ## Lemmas on the handler: one per exit of `webhookHandler` -/

theorem webhookHandler_method (u : Bytes → Bytes) (r : Request) (hm : r.method ≠ str "POST") :
    webhookHandler u r = (httpError (str "Method not allowed") 405, []) := by
  simp [webhookHandler, hm]

theorem webhookHandler_missing (u : Bytes → Bytes) (r : Request) (hm : r.method = str "POST")
    (hs : headerGet r.signatureHeader = []) :
    webhookHandler u r =
      (httpError (str "Missing signature") 401, [.writeLog (str "Missing signature")]) := by
  simp [webhookHandler, hm, hs]

theorem webhookHandler_unreadable (u : Bytes → Bytes) (r : Request)
    (hm : r.method = str "POST") (hs : headerGet r.signatureHeader ≠ [])
    (hr : r.readErr = true) :
    webhookHandler u r = (httpError (str "Cannot read body") 400, []) := by
  simp [webhookHandler, hm, hs, hr]

theorem webhookHandler_invalid (u : Bytes → Bytes) (r : Request) (hm : r.method = str "POST")
    (hs : headerGet r.signatureHeader ≠ []) (hr : r.readErr = false)
    (hv : verifySignature (headerGet r.signatureHeader) r.body = false) :
    webhookHandler u r =
      (httpError (str "Invalid signature") 401, [.writeLog (str "Invalid signature")]) := by
  simp [webhookHandler, hm, hs, hr, hv]

theorem webhookHandler_badJSON (u : Bytes → Bytes) (r : Request) (hm : r.method = str "POST")
    (hs : headerGet r.signatureHeader ≠ []) (hr : r.readErr = false)
    (hv : verifySignature (headerGet r.signatureHeader) r.body = true)
    (hp : jsonUnmarshal r.body = none) :
    webhookHandler u r = (httpError (str "Invalid JSON") 400, []) := by
  simp [webhookHandler, hm, hs, hr, hv, hp]

theorem webhookHandler_accepted (u : Bytes → Bytes) (r : Request) (payload : GitHubWebhook)
    (hm : r.method = str "POST") (hs : headerGet r.signatureHeader ≠ [])
    (hr : r.readErr = false)
    (hv : verifySignature (headerGet r.signatureHeader) r.body = true)
    (hp : jsonUnmarshal r.body = some payload) :
    webhookHandler u r =
      (⟨str "text/plain", 202, str "Deployment started for project: " ++ toLower u payload.name⟩,
       [.writeLog (str "Webhook triggered for project: " ++ toLower u payload.name),
        .runDeployScriptAsync (toLower u payload.name) payload.cloneURL]) := by
  simp [webhookHandler, hm, hs, hr, hv, hp]

theorem verifySignature_nil (body : Bytes) : verifySignature [] body = false := by
  apply verifySignature_eq_false
  intro h
  have := congrArg List.length h
  rw [expectedSignature_length] at this
  simp at this

theorem verified_ne_nil {signature body : Bytes} (hv : verifySignature signature body = true) :
    signature ≠ [] := by
  rintro rfl
  rw [verifySignature_nil] at hv
  cases hv

theorem checkValid_false_unmarshal {data : Bytes} (h : checkValid data = false) :
    jsonUnmarshal data = none := by
  simp [jsonUnmarshal, h]

theorem webhookHandler_cases (u : Bytes → Bytes) (r : Request) :
    (r.method ≠ str "POST" ∧
      webhookHandler u r = (httpError (str "Method not allowed") 405, [])) ∨
    (r.method = str "POST" ∧ headerGet r.signatureHeader = [] ∧
      webhookHandler u r =
        (httpError (str "Missing signature") 401, [.writeLog (str "Missing signature")])) ∨
    (r.method = str "POST" ∧ headerGet r.signatureHeader ≠ [] ∧ r.readErr = true ∧
      webhookHandler u r = (httpError (str "Cannot read body") 400, [])) ∨
    (r.method = str "POST" ∧ headerGet r.signatureHeader ≠ [] ∧ r.readErr = false ∧
      verifySignature (headerGet r.signatureHeader) r.body = false ∧
      webhookHandler u r =
        (httpError (str "Invalid signature") 401, [.writeLog (str "Invalid signature")])) ∨
    (r.method = str "POST" ∧ headerGet r.signatureHeader ≠ [] ∧ r.readErr = false ∧
      verifySignature (headerGet r.signatureHeader) r.body = true ∧
      jsonUnmarshal r.body = none ∧
      webhookHandler u r = (httpError (str "Invalid JSON") 400, [])) ∨
    (∃ payload, r.method = str "POST" ∧ headerGet r.signatureHeader ≠ [] ∧
      r.readErr = false ∧ verifySignature (headerGet r.signatureHeader) r.body = true ∧
      jsonUnmarshal r.body = some payload ∧
      webhookHandler u r =
        (⟨str "text/plain", 202,
          str "Deployment started for project: " ++ toLower u payload.name⟩,
         [.writeLog (str "Webhook triggered for project: " ++ toLower u payload.name),
          .runDeployScriptAsync (toLower u payload.name) payload.cloneURL])) := by
  by_cases hm : r.method = str "POST"
  · by_cases hs : headerGet r.signatureHeader = []
    · exact Or.inr (Or.inl ⟨hm, hs, webhookHandler_missing u r hm hs⟩)
    · cases hr : r.readErr with
      | true => exact Or.inr (Or.inr (Or.inl ⟨hm, hs, rfl, webhookHandler_unreadable u r hm hs hr⟩))
      | false =>
        cases hv : verifySignature (headerGet r.signatureHeader) r.body with
        | false =>
          exact Or.inr (Or.inr (Or.inr (Or.inl
            ⟨hm, hs, rfl, rfl, webhookHandler_invalid u r hm hs hr hv⟩)))
        | true =>
          cases hp : jsonUnmarshal r.body with
          | none =>
            exact Or.inr (Or.inr (Or.inr (Or.inr (Or.inl
              ⟨hm, hs, rfl, rfl, rfl, webhookHandler_badJSON u r hm hs hr hv hp⟩))))
          | some payload =>
            exact Or.inr (Or.inr (Or.inr (Or.inr (Or.inr
              ⟨payload, hm, hs, rfl, rfl, rfl, webhookHandler_accepted u r payload hm hs hr hv hp⟩))))
  · exact Or.inl ⟨hm, webhookHandler_method u r hm⟩

theorem toLower_ascii (u : Bytes → Bytes) (s : Bytes)
    (h : s.all (fun c => decide (c.val < 0x80)) = true) :
    toLower u s = if !s.any isUpperASCII then s
      else s.map (fun c => if isUpperASCII c then toByte (c.val + 32) else c) := by
  simp only [toLower, h, if_true]

/-! ## The claims -/

/-- C1: the signature the specification expects for a payload verifies against that
payload, every other signature string is rejected, and so is every single-bit mutation of
the expected signature. -/
theorem verifySignature_accepts_only_expected (P : Bytes) :
    verifySignature (expectedSignature P) P = true ∧
    (∀ s : Bytes, s ≠ expectedSignature P → verifySignature s P = false) ∧
    (∀ i k : Nat, i < (expectedSignature P).length → k < 8 →
      verifySignature (flipBit (expectedSignature P) i k) P = false) :=
  ⟨verifySignature_expected P, fun _ hs => verifySignature_eq_false hs,
    fun i k hi hk => verifySignature_eq_false (flipBit_ne _ i k hi hk)⟩

/-- Witness of C1 at the payload `{}`: its expected signature verifies, the bare prefix
and the expected signature with the lowest bit of its last byte flipped do not. -/
theorem verifySignature_accepts_only_expected_witness :
    verifySignature (expectedSignature (str "\x7b\x7d")) (str "\x7b\x7d") = true ∧
    verifySignature (str "sha256=") (str "\x7b\x7d") = false ∧
    verifySignature (flipBit (expectedSignature (str "\x7b\x7d")) 70 0) (str "\x7b\x7d") = false :=
  ⟨(verifySignature_accepts_only_expected (str "\x7b\x7d")).1,
   (verifySignature_accepts_only_expected (str "\x7b\x7d")).2.1 (str "sha256=") (by decide),
   (verifySignature_accepts_only_expected (str "\x7b\x7d")).2.2 70 0 (by decide) (by decide)⟩

/-- C2: `verifySignature` returns a boolean for every input, and that boolean is false
when the presented signature is empty, when its length is not 71, and when it has a
character that is not a hexadecimal digit after the seven characters of the prefix. -/
theorem verifySignature_rejects_malformed (signature body : Bytes) :
    (∃ b : Bool, verifySignature signature body = b) ∧
    (signature = [] → verifySignature signature body = false) ∧
    (signature.length ≠ 71 → verifySignature signature body = false) ∧
    (∀ i : Nat, 7 ≤ i → i < signature.length → isHexDigit (signature.getD i 0) = false →
      verifySignature signature body = false) := by
  refine ⟨⟨_, rfl⟩, ?_, ?_, ?_⟩
  · rintro rfl
    exact verifySignature_nil body
  · intro hlen
    apply verifySignature_eq_false
    intro h
    rw [h, expectedSignature_length] at hlen
    exact hlen rfl
  · intro i h7 hi hhex
    apply verifySignature_eq_false
    intro h
    rw [h] at hhex hi
    rw [expectedSignature_length] at hi
    rw [expectedSignature_hex body i h7 hi] at hhex
    cases hhex

/-- Witness of C2 at the body `{}`: the empty signature, a signature of ten characters
and a signature of 71 characters whose eighth character is `g`. -/
theorem verifySignature_rejects_malformed_witness :
    verifySignature [] (str "\x7b\x7d") = false ∧
    verifySignature (str "sha256=abc") (str "\x7b\x7d") = false ∧
    verifySignature (str "sha256=g" ++ List.replicate 63 (0x30 : Byte)) (str "\x7b\x7d") = false :=
  ⟨(verifySignature_rejects_malformed [] (str "\x7b\x7d")).2.1 rfl,
   (verifySignature_rejects_malformed (str "sha256=abc") (str "\x7b\x7d")).2.2.1 (by decide),
   (verifySignature_rejects_malformed (str "sha256=g" ++ List.replicate 63 (0x30 : Byte))
      (str "\x7b\x7d")).2.2.2 7 (by decide) (by decide) (by decide)⟩

/-- C3: a POST whose body is readable, whose signature header verifies against the raw
body and whose body decodes to a payload is answered with status 202 and the text
`Deployment started for project: ` followed by the lower-cased repository name, and the
dispatcher is invoked exactly once, with the lower-cased name and the clone URL. For the
example body of the specification the response text contains `my-repo`. -/
theorem webhookHandler_accepts_signed_payload (u : Bytes → Bytes) :
    (∀ (r : Request) (payload : GitHubWebhook), r.method = str "POST" → r.readErr = false →
      verifySignature (headerGet r.signatureHeader) r.body = true →
      jsonUnmarshal r.body = some payload →
      (webhookHandler u r).1.status = 202 ∧
      (webhookHandler u r).1.body =
        str "Deployment started for project: " ++ toLower u payload.name ∧
      (webhookHandler u r).2.filter Effect.isDispatch =
        [.runDeployScriptAsync (toLower u payload.name) payload.cloneURL]) ∧
    (∀ signature : Bytes, verifySignature signature exampleBody = true →
      (webhookHandler u ⟨str "POST", [signature], exampleBody, false⟩).1.status = 202 ∧
      str "my-repo" <:+: (webhookHandler u ⟨str "POST", [signature], exampleBody, false⟩).1.body) := by
  constructor
  · intro r payload hm hr hv hp
    rw [webhookHandler_accepted u r payload hm (verified_ne_nil hv) hr hv hp]
    simp [Effect.isDispatch]
  · intro signature hv
    have hp : jsonUnmarshal exampleBody = some ⟨str "My-Repo", str "https://x/y.git"⟩ := by
      decide
    have hl : toLower u (str "My-Repo") = str "my-repo" := by
      rw [toLower_ascii u _ (by decide)]
      decide
    rw [webhookHandler_accepted u ⟨str "POST", [signature], exampleBody, false⟩ _ rfl
      (verified_ne_nil hv) rfl hv hp]
    refine ⟨rfl, ?_⟩
    simp only [hl]
    exact ⟨str "Deployment started for project: ", [], by simp⟩

/-- Witness of C3: the example request signed with the expected signature, for which the
handler answers 202 with the text `Deployment started for project: my-repo` and invokes
the dispatcher once with `my-repo` and the clone URL. -/
theorem webhookHandler_accepts_signed_payload_witness :
    (webhookHandler id (signedPost exampleBody)).1.status = 202 ∧
    (webhookHandler id (signedPost exampleBody)).1.body =
      str "Deployment started for project: my-repo" ∧
    (webhookHandler id (signedPost exampleBody)).2.filter Effect.isDispatch =
      [.runDeployScriptAsync (str "my-repo") (str "https://x/y.git")] :=
  (webhookHandler_accepts_signed_payload id).1 (signedPost exampleBody)
    ⟨str "My-Repo", str "https://x/y.git"⟩ rfl rfl (verifySignature_expected exampleBody)
    (by decide)

/-- C4: a POST with a readable body whose signature header is absent (empty) or does not
verify against the body is answered with status 401, exactly one rejection entry is handed
to the log and the dispatcher is not invoked, whatever the body contains. -/
theorem webhookHandler_rejects_bad_signature (u : Bytes → Bytes) (r : Request)
    (hm : r.method = str "POST") (hr : r.readErr = false)
    (hs : headerGet r.signatureHeader = [] ∨
      verifySignature (headerGet r.signatureHeader) r.body = false) :
    (webhookHandler u r).1.status = 401 ∧
    ((webhookHandler u r).2 = [.writeLog (str "Missing signature")] ∨
      (webhookHandler u r).2 = [.writeLog (str "Invalid signature")]) ∧
    (webhookHandler u r).2.filter Effect.isDispatch = [] := by
  by_cases he : headerGet r.signatureHeader = []
  · rw [webhookHandler_missing u r hm he]
    simp [httpError, Effect.isDispatch]
  · have hv : verifySignature (headerGet r.signatureHeader) r.body = false := by
      rcases hs with h | h
      · exact absurd h he
      · exact h
    rw [webhookHandler_invalid u r hm he hr hv]
    simp [httpError, Effect.isDispatch]

/-- Witness of C4: the example body posted with a signature that is not the expected
one. -/
theorem webhookHandler_rejects_bad_signature_witness :
    (webhookHandler id ⟨str "POST", [str "sha256=00"], exampleBody, false⟩).1.status = 401 ∧
    ((webhookHandler id ⟨str "POST", [str "sha256=00"], exampleBody, false⟩).2 =
        [.writeLog (str "Missing signature")] ∨
      (webhookHandler id ⟨str "POST", [str "sha256=00"], exampleBody, false⟩).2 =
        [.writeLog (str "Invalid signature")]) ∧
    (webhookHandler id ⟨str "POST", [str "sha256=00"], exampleBody, false⟩).2.filter
      Effect.isDispatch = [] :=
  webhookHandler_rejects_bad_signature id ⟨str "POST", [str "sha256=00"], exampleBody, false⟩
    rfl rfl (Or.inr (by decide))

/-- C5: the dispatcher is invoked only for a POST whose raw body was read without error,
verified against the signature header and then decoded, these being the same bytes, with
the lower-cased name and clone URL decoded from them; it is invoked (once) exactly when
the response status is 202. -/
theorem dispatch_only_after_verification (u : Bytes → Bytes) (r : Request) :
    (∀ project cloneURL, Effect.runDeployScriptAsync project cloneURL ∈ (webhookHandler u r).2 →
      r.method = str "POST" ∧ r.readErr = false ∧
      verifySignature (headerGet r.signatureHeader) r.body = true ∧
      ∃ payload, jsonUnmarshal r.body = some payload ∧
        project = toLower u payload.name ∧ cloneURL = payload.cloneURL) ∧
    ((∃ project cloneURL, Effect.runDeployScriptAsync project cloneURL ∈ (webhookHandler u r).2) ↔
      (webhookHandler u r).1.status = 202) ∧
    ((webhookHandler u r).2.filter Effect.isDispatch).length =
      (if (webhookHandler u r).1.status = 202 then 1 else 0) := by
  rcases webhookHandler_cases u r with ⟨_, h⟩ | ⟨_, _, h⟩ | ⟨_, _, _, h⟩ | ⟨_, _, _, _, h⟩ |
    ⟨_, _, _, _, _, h⟩ | ⟨payload, hm, _, hr, hv, hp, h⟩
  · rw [h]; simp [httpError]
  · rw [h]; simp [httpError, Effect.isDispatch]
  · rw [h]; simp [httpError]
  · rw [h]; simp [httpError, Effect.isDispatch]
  · rw [h]; simp [httpError]
  · rw [h]
    simp only [List.mem_cons, List.mem_singleton, Effect.runDeployScriptAsync.injEq,
      List.not_mem_nil, or_false, false_or, reduceCtorEq]
    refine ⟨?_, ?_, ?_⟩
    · rintro p c ⟨rfl, rfl⟩
      exact ⟨hm, hr, hv, payload, hp, rfl, rfl⟩
    · simp
    · simp [Effect.isDispatch]

/-- Witness of C5 on the signed example request: the dispatcher invocation it makes comes
with a verified signature over the body that was decoded. -/
theorem dispatch_only_after_verification_witness :
    verifySignature (headerGet (signedPost exampleBody).signatureHeader)
      (signedPost exampleBody).body = true ∧
    ∃ payload, jsonUnmarshal (signedPost exampleBody).body = some payload ∧
      str "my-repo" = toLower id payload.name ∧ str "https://x/y.git" = payload.cloneURL :=
  ((dispatch_only_after_verification id (signedPost exampleBody)).1 (str "my-repo")
    (str "https://x/y.git") (by decide)).2.2

/-- C6 (counterexample): the body `{}` is valid JSON without `repository.name` and
`repository.clone_url`; posted with its valid signature it is decoded to a payload with
both fields empty, answered with status 202, and the dispatcher is invoked with an empty
project name and an empty clone URL, whatever the Unicode lower-casing does. -/
theorem webhookHandler_accepts_empty_object :
    checkValid (str "\x7b\x7d") = true ∧
    jsonUnmarshal (str "\x7b\x7d") = some ⟨[], []⟩ ∧
    verifySignature (headerGet (signedPost (str "\x7b\x7d")).signatureHeader)
      (signedPost (str "\x7b\x7d")).body = true ∧
    ∀ u : Bytes → Bytes,
      (webhookHandler u (signedPost (str "\x7b\x7d"))).1.status = 202 ∧
      (webhookHandler u (signedPost (str "\x7b\x7d"))).2.filter Effect.isDispatch =
        [.runDeployScriptAsync [] []] := by
  have hv := verifySignature_expected (str "\x7b\x7d")
  have hp : jsonUnmarshal (str "\x7b\x7d") = some ⟨[], []⟩ := by decide
  refine ⟨by decide, hp, hv, ?_⟩
  intro u
  have hl : toLower u [] = [] := by
    rw [toLower_ascii u _ (by decide)]
    decide
  rw [webhookHandler_accepted u (signedPost (str "\x7b\x7d")) _ rfl (verified_ne_nil hv) rfl
    hv hp, hl]
  exact ⟨rfl, by decide⟩

/-- C6 (amended): a validly signed POST with a readable body is rejected with status 400,
without a call of the dispatcher, exactly when `json.Unmarshal` of the body into
`GitHubWebhook` returns an error, that is, when the body is not valid JSON or the decoder
has saved a type error; that is the case for a value of the wrong JSON type, as in
`{"repository":{"name":5}}` and `{"repository":[]}`, and for a top-level array. -/
theorem webhookHandler_rejects_undecodable (u : Bytes → Bytes) (r : Request)
    (hm : r.method = str "POST") (hr : r.readErr = false)
    (hv : verifySignature (headerGet r.signatureHeader) r.body = true) :
    (((webhookHandler u r).1.status = 400 ∧
        (webhookHandler u r).2.filter Effect.isDispatch = []) ↔
      jsonUnmarshal r.body = none) ∧
    (jsonUnmarshal r.body = none ↔
      checkValid r.body = false ∨
        ∃ d after,
          value (2 * r.body.length + 2) .webhook ⟨⟨[], []⟩, false⟩ (skipSpace r.body) =
            some (d, after) ∧ d.savedError = true) ∧
    jsonUnmarshal (str "\x7b\"repository\":\x7b\"name\":5\x7d\x7d") = none ∧
    jsonUnmarshal (str "\x7b\"repository\":[]\x7d") = none ∧
    jsonUnmarshal (str "[]") = none := by
  refine ⟨?_, jsonUnmarshal_eq_none_iff r.body, by decide, by decide, by decide⟩
  cases hp : jsonUnmarshal r.body with
  | none =>
    rw [webhookHandler_badJSON u r hm (verified_ne_nil hv) hr hv hp]
    simp [httpError]
  | some payload =>
    rw [webhookHandler_accepted u r payload hm (verified_ne_nil hv) hr hv hp]
    simp

/-- Witness of C6 (amended): the body `{"repository":{"name":5}}` posted with its valid
signature is rejected with status 400 and no call of the dispatcher. -/
theorem webhookHandler_rejects_undecodable_witness :
    (webhookHandler id (signedPost (str "\x7b\"repository\":\x7b\"name\":5\x7d\x7d"))).1.status
      = 400 ∧
    (webhookHandler id (signedPost (str "\x7b\"repository\":\x7b\"name\":5\x7d\x7d"))).2.filter
      Effect.isDispatch = [] :=
  (webhookHandler_rejects_undecodable id
    (signedPost (str "\x7b\"repository\":\x7b\"name\":5\x7d\x7d")) rfl rfl
    (verifySignature_expected _)).1.2 (by decide)

/-- C7: a POST with a signature header present is answered with status 400, with no log
entry and no call of the dispatcher, when reading the body fails, and when the signature
verifies but the body is not valid JSON. -/
theorem webhookHandler_malformed_request (u : Bytes → Bytes) (r : Request)
    (hm : r.method = str "POST") (hs : headerGet r.signatureHeader ≠ [])
    (h : r.readErr = true ∨
      (verifySignature (headerGet r.signatureHeader) r.body = true ∧
        checkValid r.body = false)) :
    (webhookHandler u r).1.status = 400 ∧ (webhookHandler u r).2 = [] := by
  cases hr : r.readErr with
  | true =>
    rw [webhookHandler_unreadable u r hm hs hr]
    simp [httpError]
  | false =>
    rcases h with h | ⟨hv, hc⟩
    · rw [hr] at h
      cases h
    · rw [webhookHandler_badJSON u r hm hs hr hv (checkValid_false_unmarshal hc)]
      simp [httpError]

/-- Witness of C7: the truncated body `{"repository":` posted with its valid signature,
and a request whose body could not be read. -/
theorem webhookHandler_malformed_request_witness :
    ((webhookHandler id (signedPost (str "\x7b\"repository\":"))).1.status = 400 ∧
      (webhookHandler id (signedPost (str "\x7b\"repository\":"))).2 = []) ∧
    ((webhookHandler id ⟨str "POST", [str "sha256=00"], [], true⟩).1.status = 400 ∧
      (webhookHandler id ⟨str "POST", [str "sha256=00"], [], true⟩).2 = []) :=
  ⟨webhookHandler_malformed_request id (signedPost (str "\x7b\"repository\":")) rfl
      (verified_ne_nil (verifySignature_expected _))
      (Or.inr ⟨verifySignature_expected _, by decide⟩),
   webhookHandler_malformed_request id ⟨str "POST", [str "sha256=00"], [], true⟩ rfl
      (by decide) (Or.inl rfl)⟩

/-- C8: whatever the project, the clone URL and the outcome of the deploy action, the
background task hands exactly three entries to `writeLog`, in this order: the start entry
naming the project, the captured output verbatim, and a terminal entry, which is the
success entry when there is no error and otherwise `Deployment error: ` followed by the
description of the error, of the same form for a start failure, a non-zero exit and a
timeout. When the log file opens at each call the file grows by these three entries. -/
theorem runDeployScriptAsync_entries (run : Runner) (project cloneURL : Bytes) :
    ∃ terminal : Bytes,
      runDeployScriptAsync run project cloneURL =
        [str "Running deploy script for project: " ++ project,
         (run timeout (deployCommand project cloneURL)).1, terminal] ∧
      ((run timeout (deployCommand project cloneURL)).2 = none →
        terminal = str "Deployment success for project: " ++ project) ∧
      (∀ e : DeployError, (run timeout (deployCommand project cloneURL)).2 = some e →
        terminal = str "Deployment error: " ++ e.description) ∧
      (∀ d : Bytes, ∀ e ∈ [DeployError.startFailure d, DeployError.nonZeroExit d,
          DeployError.timedOut d],
        (run timeout (deployCommand project cloneURL)).2 = some e →
        terminal = str "Deployment error: " ++ d) ∧
      (∀ (file : Bytes) (t1 t2 t3 : Time),
        writeLogAll file (List.zip [⟨true, t1⟩, ⟨true, t2⟩, ⟨true, t3⟩]
            (runDeployScriptAsync run project cloneURL)) =
          file ++ logEntry t1 (str "Running deploy script for project: " ++ project) ++
            logEntry t2 (run timeout (deployCommand project cloneURL)).1 ++
            logEntry t3 terminal) := by
  rcases hrun : run timeout (deployCommand project cloneURL) with ⟨output, err⟩
  cases err with
  | none =>
    refine ⟨str "Deployment success for project: " ++ project, ?_, ?_, ?_, ?_, ?_⟩
    · simp [runDeployScriptAsync, hrun]
    · intro _; rfl
    · intro e he; cases he
    · intro d e _ he; cases he
    · intro file t1 t2 t3
      simp [runDeployScriptAsync, hrun, writeLogAll, writeLog]
  | some e =>
    refine ⟨str "Deployment error: " ++ e.description, ?_, ?_, ?_, ?_, ?_⟩
    · simp [runDeployScriptAsync, hrun]
    · intro he; cases he
    · intro e1 he
      cases he
      rfl
    · intro d e1 hmem he
      cases he
      simp only [List.mem_cons, List.mem_singleton, List.not_mem_nil, or_false] at hmem
      rcases hmem with rfl | rfl | rfl <;> rfl
    · intro file t1 t2 t3
      simp [runDeployScriptAsync, hrun, writeLogAll, writeLog]

/-- Witness of C8: a deploy action killed at the deadline, with its partial output. -/
theorem runDeployScriptAsync_entries_witness :
    runDeployScriptAsync (fun _ _ => (str "cloning", some (.timedOut (str "signal: killed"))))
        (str "demo") (str "https://x/y.git") =
      [str "Running deploy script for project: demo", str "cloning",
       str "Deployment error: signal: killed"] := by
  obtain ⟨terminal, h, _, herr, _, _⟩ :=
    runDeployScriptAsync_entries (fun _ _ => (str "cloning", some (.timedOut (str "signal: killed"))))
      (str "demo") (str "https://x/y.git")
  rw [h, herr _ rfl]
  decide

/-! ## Lemmas on the log format -/

theorem isDigit_digit (n : Nat) : isDigit (digit n) = true := by
  have h : n % 10 < 10 := Nat.mod_lt n (by decide)
  simp only [isDigit, digit, toByte, decide_eq_true_eq]
  omega

theorem appendInt_two (n : Nat) (h : n < 100) :
    appendInt (n : Int) 2 = [digit (n / 10), digit n] := by
  simp [appendInt, h]

theorem appendInt_four (y : Int) (h0 : 0 ≤ y) (h1 : y ≤ 9999) :
    appendInt y 4 = [digit (y.natAbs / 1000), digit (y.natAbs / 100), digit (y.natAbs / 10),
      digit y.natAbs] := by
  have hlt : ¬ y < 0 := not_lt.mpr h0
  have hu : y.natAbs < 10000 := by omega
  simp [appendInt, hlt, hu]

theorem formatTime_isTimestamp (t : Time) (ht : t.inRange) :
    isTimestamp (formatTime t) = true := by
  obtain ⟨hy0, hy1, _, hmo, _, hd, hh, hmi, hs⟩ := ht
  have e1 : str "-" = [(0x2D : Byte)] := by decide
  have e2 : str " " = [(0x20 : Byte)] := by decide
  have e3 : str ":" = [(0x3A : Byte)] := by decide
  have d1 : isDigit (0x2D : Byte) = false := by decide
  have d2 : isDigit (0x20 : Byte) = false := by decide
  have d3 : isDigit (0x3A : Byte) = false := by decide
  have e4 : str "0000-00-00 00:00:00" =
      [0x30, 0x30, 0x30, 0x30, 0x2D, 0x30, 0x30, 0x2D, 0x30, 0x30, 0x20, 0x30, 0x30, 0x3A,
        0x30, 0x30, 0x3A, 0x30, 0x30] := by decide
  simp only [isTimestamp, formatTime, appendInt_four t.year hy0 hy1,
    appendInt_two t.month (by omega), appendInt_two t.day (by omega),
    appendInt_two t.hour (by omega), appendInt_two t.minute (by omega),
    appendInt_two t.second (by omega), e1, e2, e3, e4, List.cons_append, List.nil_append,
    List.map_cons, List.map_nil, isDigit_digit, d1, d2, d3, if_true, decide_eq_true_eq]
  simp

theorem isTimestamp_no_newline (ts : Bytes) (h : isTimestamp ts = true) :
    ∀ c ∈ ts, c.val ≠ 0x0A := by
  intro c hc hnl
  have hcd : isDigit c = false := by
    simp only [isDigit, hnl]
    decide
  have hmem : (if isDigit c then (0x30 : Byte) else c) ∈
      ts.map (fun c => if isDigit c then (0x30 : Byte) else c) := List.mem_map_of_mem _ hc
  simp only [isTimestamp, decide_eq_true_eq] at h
  rw [h, hcd] at hmem
  have hc10 : c = (0x0A : Byte) := Fin.ext hnl
  rw [hc10] at hmem
  revert hmem
  decide

theorem splitLines_terminated (l : Bytes) (h : ∀ c ∈ l, c.val ≠ 0x0A) :
    splitLines (l ++ [(0x0A : Byte)]) = [l] := by
  induction l with
  | nil => decide
  | cons c rest ih =>
    have hc : c.val ≠ 0x0A := h c (List.mem_cons_self _ _)
    have hrest : ∀ d ∈ rest, d.val ≠ 0x0A := fun d hd => h d (List.mem_cons_of_mem _ hd)
    simp [splitLines, hc, ih hrest]

theorem logEntry_eq (now : Time) (message : Bytes) :
    logEntry now message = (str "[" ++ formatTime now ++ str "] " ++ message) ++ [(0x0A : Byte)] := by
  have e : str "\n" = [(0x0A : Byte)] := by decide
  simp [logEntry, e]

/-- C9 (counterexample): a deploy action printing two lines makes the background task hand
the two-line output to `writeLog`, and the entry written for it puts `done` on a line of
its own, which does not begin with a bracketed timestamp. -/
theorem writeLog_continuation_line_unstamped :
    runDeployScriptAsync (fun _ _ => (str "cloning\ndone", none)) (str "demo") (str "https://x/y.git") =
      [str "Running deploy script for project: demo", str "cloning\ndone",
       str "Deployment success for project: demo"] ∧
    splitLines (writeLog ⟨true, ⟨2024, 1, 2, 3, 4, 5⟩⟩ [] (str "cloning\ndone")) =
      [str "[2024-01-02 03:04:05] cloning", str "done"] ∧
    isStampedLine (str "[2024-01-02 03:04:05] cloning") = true ∧
    isStampedLine (str "done") = false := by
  decide

theorem digit_ne_newline (n : Nat) : (digit n).val ≠ 0x0A := by
  have h := isDigit_digit n
  simp only [isDigit, decide_eq_true_eq] at h
  omega

theorem decimal_no_newline (fuel n : Nat) : ∀ c ∈ decimal fuel n, c.val ≠ 0x0A := by
  induction fuel generalizing n with
  | zero =>
    intro c hc
    simp [decimal] at hc
  | succ fuel ih =>
    intro c hc
    rw [decimal] at hc
    split at hc
    · simp only [List.mem_singleton] at hc
      subst hc
      exact digit_ne_newline n
    · simp only [List.mem_append, List.mem_singleton] at hc
      rcases hc with hc | hc
      · exact ih _ c hc
      · subst hc
        exact digit_ne_newline n

theorem appendInt_no_newline (x : Int) (width : Nat) : ∀ c ∈ appendInt x width, c.val ≠ 0x0A := by
  intro c hc
  simp only [appendInt, List.mem_append] at hc
  rcases hc with hc | hc
  · split at hc
    · simp only [List.mem_singleton] at hc
      subst hc
      decide
    · simp at hc
  · split at hc
    · simp only [List.mem_cons, List.mem_singleton, List.not_mem_nil, or_false] at hc
      rcases hc with hc | hc <;> subst hc <;> exact digit_ne_newline _
    · split at hc
      · simp only [List.mem_cons, List.mem_singleton, List.not_mem_nil, or_false] at hc
        rcases hc with hc | hc | hc | hc <;> subst hc <;> exact digit_ne_newline _
      · simp only [List.mem_append, List.mem_replicate] at hc
        rcases hc with ⟨_, hc⟩ | hc
        · subst hc
          decide
        · exact decimal_no_newline _ _ c hc

theorem formatTime_no_newline (t : Time) : ∀ c ∈ formatTime t, c.val ≠ 0x0A := by
  intro c hc
  have e1 : str "-" = [(0x2D : Byte)] := by decide
  have e2 : str " " = [(0x20 : Byte)] := by decide
  have e3 : str ":" = [(0x3A : Byte)] := by decide
  simp only [formatTime, e1, e2, e3, List.mem_append, List.mem_singleton] at hc
  rcases hc with (((((((((hc | hc) | hc) | hc) | hc) | hc) | hc) | hc) | hc) | hc) | hc
  · exact appendInt_no_newline _ _ c hc
  · subst hc; decide
  · exact appendInt_no_newline _ _ c hc
  · subst hc; decide
  · exact appendInt_no_newline _ _ c hc
  · subst hc; decide
  · exact appendInt_no_newline _ _ c hc
  · subst hc; decide
  · exact appendInt_no_newline _ _ c hc
  · subst hc; decide
  · exact appendInt_no_newline _ _ c hc

theorem stamp_no_newline (t : Time) :
    ∀ c ∈ str "[" ++ formatTime t ++ str "] ", c.val ≠ 0x0A := by
  intro c hc
  simp only [List.mem_append] at hc
  rcases hc with (hc | hc) | hc
  · revert c; decide
  · exact formatTime_no_newline t c hc
  · revert c; decide

theorem splitLines_append_of_no_newline (p m first : Bytes) (others : List Bytes)
    (hp : ∀ c ∈ p, c.val ≠ 0x0A) (hm : splitLines m = first :: others) :
    splitLines (p ++ m) = (p ++ first) :: others := by
  induction p with
  | nil => simpa using hm
  | cons c rest ih =>
    have hc : c.val ≠ 0x0A := hp c (List.mem_cons_self _ _)
    have hrest : ∀ d ∈ rest, d.val ≠ 0x0A := fun d hd => hp d (List.mem_cons_of_mem _ hd)
    simp [splitLines, hc, ih hrest]

theorem splitLines_ne_nil (m : Bytes) (hm : m ≠ []) : splitLines m ≠ [] := by
  cases m with
  | nil => exact absurd rfl hm
  | cons c rest =>
    rw [splitLines]
    split
    · simp
    · split <;> simp

theorem isStampedLine_stamp (t : Time) (ht : t.inRange) (text : Bytes) :
    isStampedLine (str "[" ++ formatTime t ++ str "] " ++ text) = true := by
  have hts := formatTime_isTimestamp t ht
  have hlen : (formatTime t).length = 19 := by
    have := congrArg List.length (of_decide_eq_true hts)
    simpa using this
  have e1 : str "[" = [(0x5B : Byte)] := by decide
  have e2 : str "] " = [(0x5D : Byte), (0x20 : Byte)] := by decide
  simp only [isStampedLine, e1, e2, List.cons_append, List.nil_append, List.append_assoc,
    List.take_succ_cons, List.take_zero, List.drop_succ_cons, List.drop_zero,
    Bool.and_eq_true, decide_eq_true_eq, true_and]
  constructor
  · rw [List.take_append_of_le_length (by omega), List.take_of_length_le (by omega)]
    exact hts
  · have : (20 : Nat) = 1 + 19 := rfl
    rw [List.drop_append_of_le_length (by omega), List.drop_of_length_le (by omega)]
    rfl

/-- C9 (amended): for every message, with any clock reading, `writeLog` appends nothing
when the log file does not open and otherwise exactly `[`, the formatted clock reading,
`] `, the message verbatim and a line feed. The lines of that entry are the lines of the
message, the first of them after the bracketed clock reading and the others unchanged, so
a message with line feeds is written verbatim after a single timestamp. For a clock
reading of the years 0 to 9999 the formatted reading has the shape `YYYY-MM-DD HH:MM:SS`
and the first line begins with the bracketed timestamp. For a message without a line feed
the entry is the single line `[YYYY-MM-DD HH:MM:SS] <message>`, and every line appended
to the log file has this form. -/
theorem writeLog_entry_format (env : LogEnv) (file message : Bytes) :
    (env.openOk = false → writeLog env file message = file) ∧
    (env.openOk = true →
      writeLog env file message =
        file ++ (str "[" ++ formatTime env.now ++ str "] " ++ message ++ str "\n")) ∧
    (∃ first others,
      splitLines (message ++ str "\n") = first :: others ∧
      splitLines (str "[" ++ formatTime env.now ++ str "] " ++ message ++ str "\n") =
        (str "[" ++ formatTime env.now ++ str "] " ++ first) :: others) ∧
    (env.now.inRange →
      isTimestamp (formatTime env.now) = true ∧
      ∀ text : Bytes,
        isStampedLine (str "[" ++ formatTime env.now ++ str "] " ++ text) = true) ∧
    ((∀ c ∈ message, c.val ≠ 0x0A) →
      splitLines (str "[" ++ formatTime env.now ++ str "] " ++ message ++ str "\n") =
        [str "[" ++ formatTime env.now ++ str "] " ++ message]) ∧
    (env.now.inRange → (∀ c ∈ message, c.val ≠ 0x0A) →
      ∃ appended : Bytes,
        writeLog env file message = file ++ appended ∧
        (∀ line ∈ splitLines appended,
          line = str "[" ++ formatTime env.now ++ str "] " ++ message ∧
            isStampedLine line = true) ∧
        (env.openOk = true →
          appended = str "[" ++ formatTime env.now ++ str "] " ++ message ++ str "\n" ∧
          splitLines appended = [str "[" ++ formatTime env.now ++ str "] " ++ message])) := by
  have enl : str "\n" = [(0x0A : Byte)] := by decide
  have hsingle : (∀ c ∈ message, c.val ≠ 0x0A) →
      splitLines (str "[" ++ formatTime env.now ++ str "] " ++ message ++ str "\n") =
        [str "[" ++ formatTime env.now ++ str "] " ++ message] := by
    intro hmsg
    have hno : ∀ c ∈ str "[" ++ formatTime env.now ++ str "] " ++ message, c.val ≠ 0x0A := by
      intro c hc
      rcases List.mem_append.mp hc with hc | hc
      · exact stamp_no_newline env.now c hc
      · exact hmsg c hc
    rw [enl]
    exact splitLines_terminated _ hno
  refine ⟨?_, ?_, ?_, ?_, hsingle, ?_⟩
  · intro h
    simp [writeLog, h]
  · intro h
    simp [writeLog, logEntry, h]
  · cases hs : splitLines (message ++ str "\n") with
    | nil =>
      exact absurd hs (splitLines_ne_nil _ (by simp [enl]))
    | cons first others =>
      refine ⟨first, others, rfl, ?_⟩
      rw [List.append_assoc (str "[" ++ formatTime env.now ++ str "] ")]
      exact splitLines_append_of_no_newline _ _ first others (stamp_no_newline env.now) hs
  · intro ht
    exact ⟨formatTime_isTimestamp env.now ht, isStampedLine_stamp env.now ht⟩
  · intro ht hmsg
    cases hopen : env.openOk with
    | false =>
      refine ⟨[], by simp [writeLog, hopen], ?_, ?_⟩
      · intro line hl
        simp [splitLines] at hl
      · intro h; cases h
    | true =>
      refine ⟨str "[" ++ formatTime env.now ++ str "] " ++ message ++ str "\n",
        by simp [writeLog, logEntry, hopen], ?_, ?_⟩
      · intro line hl
        rw [hsingle hmsg] at hl
        simp only [List.mem_singleton] at hl
        subst hl
        exact ⟨rfl, isStampedLine_stamp env.now ht message⟩
      · intro _
        exact ⟨rfl, hsingle hmsg⟩

/-- Witness of C9 (amended): the rejection entry written at 2024-01-02 03:04:05 is the one
line `[2024-01-02 03:04:05] Invalid signature`, and the two-line deploy output written at
the same time is the line `[2024-01-02 03:04:05] cloning` followed by the line `done`. -/
theorem writeLog_entry_format_witness :
    writeLog ⟨true, ⟨2024, 1, 2, 3, 4, 5⟩⟩ [] (str "Invalid signature") =
      [] ++ (str "[" ++ formatTime ⟨2024, 1, 2, 3, 4, 5⟩ ++ str "] " ++
        str "Invalid signature" ++ str "\n") ∧
    isTimestamp (formatTime ⟨2024, 1, 2, 3, 4, 5⟩) = true ∧
    splitLines (str "[" ++ formatTime ⟨2024, 1, 2, 3, 4, 5⟩ ++ str "] " ++
        str "Invalid signature" ++ str "\n") =
      [str "[" ++ formatTime ⟨2024, 1, 2, 3, 4, 5⟩ ++ str "] " ++ str "Invalid signature"] ∧
    writeLog ⟨true, ⟨2024, 1, 2, 3, 4, 5⟩⟩ (str "old\n") (str "cloning\ndone") =
      str "old\n" ++ (str "[" ++ formatTime ⟨2024, 1, 2, 3, 4, 5⟩ ++ str "] " ++
        str "cloning\ndone" ++ str "\n") :=
  ⟨(writeLog_entry_format ⟨true, ⟨2024, 1, 2, 3, 4, 5⟩⟩ [] (str "Invalid signature")).2.1 rfl,
   ((writeLog_entry_format ⟨true, ⟨2024, 1, 2, 3, 4, 5⟩⟩ [] (str "Invalid signature")).2.2.2.1
      (by decide)).1,
   (writeLog_entry_format ⟨true, ⟨2024, 1, 2, 3, 4, 5⟩⟩ [] (str "Invalid signature")).2.2.2.2.1
      (by decide),
   (writeLog_entry_format ⟨true, ⟨2024, 1, 2, 3, 4, 5⟩⟩ (str "old\n")
      (str "cloning\ndone")).2.1 rfl⟩

/-- C10: the status of the response is decided by the first failing check in the order
method, signature presence, body read, signature verification, payload decoding: 405,
401, 400, 401, 400, and 202 when no check fails; it is always one of 405, 401, 400 and
202, and a GET is answered with 405 whatever its headers and body. -/
theorem webhookHandler_status_order (u : Bytes → Bytes) (r : Request) :
    (webhookHandler u r).1.status =
      (if r.method ≠ str "POST" then 405
       else if headerGet r.signatureHeader = [] then 401
       else if r.readErr = true then 400
       else if verifySignature (headerGet r.signatureHeader) r.body = false then 401
       else if jsonUnmarshal r.body = none then 400
       else 202) ∧
    (webhookHandler u r).1.status ∈ [405, 401, 400, 202] ∧
    (∀ (values : List Bytes) (body : Bytes) (readErr : Bool),
      (webhookHandler u ⟨str "GET", values, body, readErr⟩).1.status = 405) := by
  refine ⟨?_, ?_, ?_⟩
  · rcases webhookHandler_cases u r with ⟨hm, h⟩ | ⟨hm, hs, h⟩ | ⟨hm, hs, hr, h⟩ |
      ⟨hm, hs, hr, hv, h⟩ | ⟨hm, hs, hr, hv, hp, h⟩ | ⟨payload, hm, hs, hr, hv, hp, h⟩
    · rw [h]; simp [httpError, hm]
    · rw [h]; simp [httpError, hm, hs]
    · rw [h]; simp [httpError, hm, hs, hr]
    · rw [h]; simp [httpError, hm, hs, hr, hv]
    · rw [h]; simp [httpError, hm, hs, hr, hv, hp]
    · rw [h]; simp [hm, hs, hr, hv, hp]
  · rcases webhookHandler_cases u r with ⟨_, h⟩ | ⟨_, _, h⟩ | ⟨_, _, _, h⟩ | ⟨_, _, _, _, h⟩ |
      ⟨_, _, _, _, _, h⟩ | ⟨_, _, _, _, _, _, h⟩ <;> rw [h] <;> simp [httpError]
  · intro values body readErr
    have hget : str "GET" ≠ str "POST" := by decide
    rw [webhookHandler_method u ⟨str "GET", values, body, readErr⟩ hget]
    rfl

end Webhook
